import Mathlib

/-!
# Verification of the 0xSS7 SCTP scanner

Shallow embedding of the two source files of the repository:

* `src/SCTP/scan.py` — the bounded-concurrency non-blocking connection
  scanning engine `scan_sctp(ips, ports, concurrency, timeout)`;
* `src/SCTP/connect.py` — the M3UA ASPUP message builder
  `build_m3ua_aspup()`.

## Modelling choices for `scan_sctp`

The Python function drives an event loop over an OS environment (sockets,
`selectors.DefaultSelector`, `time.time()`).  We embed the loop as a pure
step function over an explicit `ScanState`, parameterised by an `Env`
oracle that answers every question the code asks the outside world:

* `Env.startClock s` — the value `time.time()` returns at line 111
  (the `started_at` stamp of an admission performed in machine state `s`);
* `Env.nowClock s`   — the value `time.time()` returns at line 119
  (the `now` sample taken right after `selector.select`);
* `Env.readyAt s`    — the sockets `selector.select(timeout=0.1)` reports
  writable at line 118.  The selector can only report currently registered
  handles, each at most once; the step function enforces that contract by
  filtering against the registered set and removing duplicates;
* `Env.soErr s sock` — the value `sock.getsockopt(SOL_SOCKET, SO_ERROR)`
  returns at line 125;
* `Env.sockFail s`   — whether `socket.socket(...)` at line 107 raises
  `OSError` (resource exhaustion).  Only `StopIteration` is caught by the
  code, so such an exception propagates out of `scan_sctp`; the model
  returns the machine state at the raise point in that case.

`time.time()` values (Python floats) are embedded as integer clock ticks
(a fixed sub-second unit, say 100 ms or 1 ns — every use the code makes of
time is the ordered comparison `now - started_at >= timeout`, so the
choice of unit is immaterial and an arbitrary trace of tick readings
covers every float trace up to that resolution).  Socket
objects are identified by allocation order (`nextSock`).  The dict
`in_flight` (insertion ordered, keys unique) is a list of `Attempt`
records.  The fields `opened`, `resolved`, `closed` of `ScanState` and the
field `bornAt` of `Attempt` are ghost instrumentation: they record the
history of socket creations, resolutions and `sock.close()` calls and are
never read by the step function, so the executable behaviour is exactly
that of the Python loop.
-/

namespace Scan

/-- A scan target: an `(ip, port)` pair, as produced by the generator
`((ip, port) for ip in ips for port in ports)` at scan.py line 88. -/
abbrev Target := String × Nat

/-- How one connection attempt was resolved: writable with zero `SO_ERROR`
(success, target appended to `results`), writable with non-zero `SO_ERROR`
(failure, discarded), or expired (`now - start >= timeout`). -/
inductive ResKind
  | success
  | failure
  | timeout
deriving DecidableEq, Repr

/-- Ghost log entry: one resolution event of the socket `sock` that was
attempting `target`. -/
structure ResEntry where
  sock : Nat
  target : Target
  kind : ResKind
deriving DecidableEq, Repr

/-- One outstanding non-blocking connect: the entry
`in_flight[sock] = (ip, port, started_at)` of scan.py line 111.
`bornAt` is ghost instrumentation recording the iteration index at which
the admission happened; it is never read by the step function. -/
structure Attempt where
  sock : Nat
  target : Target
  start : ℤ
  bornAt : Nat
deriving DecidableEq, Repr

/-- The machine state of `scan_sctp` (scan.py lines 84-139).
`tasks` is the unconsumed part of the target generator, `results` the list
built at line 127, `in_flight` the dict of line 87, `registered` the set of
handles currently registered with the selector, `nextSock` the next socket
identifier, `selIdx` the number of completed loop iterations (= calls to
`selector.select`).  `opened`, `resolved` and `closed` are ghost logs of
socket creations, resolutions and `sock.close()` calls. -/
structure ScanState where
  tasks : List Target
  results : List Target
  in_flight : List Attempt
  registered : List Nat
  nextSock : Nat
  selIdx : Nat
  opened : List (Nat × Target)
  resolved : List ResEntry
  closed : List Nat
deriving DecidableEq, Repr

/-- The environment oracle: everything the OS decides during a run. -/
structure Env where
  startClock : ScanState → ℤ
  nowClock : ScanState → ℤ
  readyAt : ScanState → List Nat
  soErr : ScanState → Nat → Nat
  sockFail : ScanState → Bool

/-- The admission loop, scan.py lines 104-113:

    try:
        while len(in_flight) < concurrency:
            ip, port = next(tasks)
            sock = socket.socket(AF_INET, SOCK_STREAM, IPPROTO_SCTP)
            sock.setblocking(False)
            sock.connect_ex((ip, port))
            selector.register(sock, EVENT_WRITE)
            in_flight[sock] = (ip, port, time.time())
    except StopIteration:
        pass

`next` on an exhausted generator raises `StopIteration`, which is caught:
`.ok s` with `tasks = []`.  If `socket.socket` raises `OSError`, nothing
catches it and `scan_sctp` aborts: `.error` carrying the state at the
raise point (the target has already been consumed by `next`).

`refillGo` iterates structurally over the remaining producer items; the
list it consumes is always the one held in the `tasks` field (`refill`
starts it on `s.tasks`, and every step passes the tail it stores). -/
def refillGo (env : Env) (conc : Nat) :
    List Target → ScanState → Except ScanState ScanState
  | [], s => .ok s
  | t :: rest, s =>
    if s.in_flight.length < conc then
      if env.sockFail s then
        .error { s with tasks := rest }
      else
        refillGo env conc rest { s with
          tasks := rest,
          in_flight := s.in_flight ++ [⟨s.nextSock, t, env.startClock s, s.selIdx⟩],
          registered := s.registered ++ [s.nextSock],
          opened := s.opened ++ [(s.nextSock, t)],
          nextSock := s.nextSock + 1 }
    else .ok s

/-- The admission loop, entered with the items the generator has not yet
produced. -/
def refill (env : Env) (conc : Nat) (s : ScanState) : Except ScanState ScanState :=
  refillGo env conc s.tasks s

/-- The resolution entry written when a writable socket is popped:
success iff the pending `SO_ERROR` is zero (scan.py lines 125-127). -/
def entryFor (err : Nat) (a : Attempt) : ResEntry :=
  ⟨a.sock, a.target, if err = 0 then .success else .failure⟩

/-- The readiness-processing loop, scan.py lines 121-128:

    for key, _ in events:
        sock = key.fileobj
        ip, port, start = in_flight.pop(sock)
        selector.unregister(sock)
        err = sock.getsockopt(SOL_SOCKET, SO_ERROR)
        if err == 0:
            results.append((ip, port))
        sock.close()

The `none` branch is unreachable when the selector contract holds (it only
reports registered handles, which are exactly the `in_flight` keys). -/
def resolveReady (env : Env) : List Nat → ScanState → ScanState
  | [], s => s
  | sock :: rest, s =>
    match s.in_flight.find? (fun a => a.sock == sock) with
    | none => resolveReady env rest s
    | some a =>
      let err := env.soErr s sock
      resolveReady env rest { s with
        in_flight := s.in_flight.eraseP (fun b => b.sock == sock),
        registered := s.registered.erase sock,
        results := if err = 0 then s.results ++ [a.target] else s.results,
        resolved := s.resolved ++ [entryFor err a],
        closed := s.closed ++ [sock] }

/-- The expiry sweep, scan.py lines 131-137:

    for sock, (ip, port, start) in list(in_flight.items()):
        if now - start >= timeout:
            selector.unregister(sock)
            sock.close()
            in_flight.pop(sock)

Iterating a snapshot of the dict and popping the expired entries is the
same as filtering the insertion-ordered list. -/
def sweepLoop (now T : ℤ) (s : ScanState) : ScanState :=
  let expired := s.in_flight.filter (fun a => decide (T ≤ now - a.start))
  { s with
    in_flight := s.in_flight.filter (fun a => decide (¬ T ≤ now - a.start)),
    registered := s.registered.filter (fun id => decide (id ∉ expired.map Attempt.sock)),
    resolved := s.resolved ++ expired.map (fun a => ⟨a.sock, a.target, ResKind.timeout⟩),
    closed := s.closed ++ expired.map Attempt.sock }

/-- The effective list of writable handles: whatever the environment
reports, restricted by the selector contract — only currently registered
handles, each at most once. -/
def readyEff (env : Env) (s : ScanState) : List Nat :=
  ((env.readyAt s).filter (fun id => decide (id ∈ s.registered))).dedup

/-- Result of one iteration of the `while True` loop. -/
inductive IterResult
  | iterDone (s : ScanState)
  | iterCont (s : ScanState)
  | iterAbort (s : ScanState)
deriving DecidableEq, Repr

/-- The machine state carried by an iteration outcome. -/
def IterResult.state : IterResult → ScanState
  | .iterDone s => s
  | .iterCont s => s
  | .iterAbort s => s

/-- The attempts popped by the readiness-processing loop for the given
list of ready socket identifiers, in processing order. -/
def popAttempts (l : List Attempt) (ready : List Nat) : List Attempt :=
  ready.filterMap (fun id => l.find? (fun b => b.sock == id))

/-- One iteration of the event loop, scan.py lines 102-137: refill up to
the concurrency cap; `if not in_flight: break`; select; `now = time.time()`;
process writable handles; sweep expired attempts. -/
def scanIter (env : Env) (conc : Nat) (T : ℤ) (s : ScanState) : IterResult :=
  match refill env conc s with
  | .error sE => .iterAbort sE
  | .ok s1 =>
    if s1.in_flight.isEmpty then .iterDone s1
    else
      let now := env.nowClock s1
      let s2 := resolveReady env (readyEff env s1) s1
      let s3 := sweepLoop now T s2
      .iterCont { s3 with selIdx := s3.selIdx + 1 }

/-- Outcome of running the loop with a fuel bound: normal return of
`scan_sctp` (`runDone`), a propagated exception (`runAborted`), or fuel
exhaustion (`runOut`, no Python counterpart — the loop is still running). -/
inductive RunResult
  | runDone (s : ScanState)
  | runAborted (s : ScanState)
  | runOut (s : ScanState)
deriving DecidableEq, Repr

/-- Whether the run returned normally. -/
def RunResult.isDone : RunResult → Bool
  | .runDone _ => true
  | _ => false

/-- Whether the run aborted with a propagated exception. -/
def RunResult.isAborted : RunResult → Bool
  | .runAborted _ => true
  | _ => false

/-- The machine state carried by the outcome. -/
def RunResult.state : RunResult → ScanState
  | .runDone s => s
  | .runAborted s => s
  | .runOut s => s

/-- The `while True` loop of scan.py lines 102-137, with explicit fuel. -/
def scanLoop (env : Env) (conc : Nat) (T : ℤ) : Nat → ScanState → RunResult
  | 0, s => .runOut s
  | fuel + 1, s =>
    match scanIter env conc T s with
    | .iterDone s1 => .runDone s1
    | .iterAbort s1 => .runAborted s1
    | .iterCont s1 => scanLoop env conc T fuel s1

/-- The target sequence producer, scan.py line 88:
`tasks = ((ip, port) for ip in ips for port in ports)` —
outer iteration over hosts, inner iteration over ports. -/
def tasksOf (ips : List String) (ports : List Nat) : List Target :=
  ips.flatMap (fun ip => ports.map (fun p => (ip, p)))

/-- The state of `scan_sctp` just before the loop (scan.py lines 85-88):
empty results, empty in-flight dict, full task sequence. -/
def initState (ips : List String) (ports : List Nat) : ScanState :=
  ⟨tasksOf ips ports, [], [], [], 0, 0, [], [], []⟩

/-- `scan_sctp(ips, ports, concurrency, timeout)`, scan.py lines 84-139,
run under environment `env` with the given fuel. -/
def scan_sctp (env : Env) (ips : List String) (ports : List Nat)
    (conc : Nat) (T : ℤ) (fuel : Nat) : RunResult :=
  scanLoop env conc T fuel (initState ips ports)

/-- The state at the entry of the `k`-th loop iteration (observation
points of the invariants); `none` once the loop has exited. -/
def stateAt (env : Env) (conc : Nat) (T : ℤ) (s0 : ScanState) : Nat → Option ScanState
  | 0 => some s0
  | k + 1 =>
    (stateAt env conc T s0 k).bind (fun s =>
      match scanIter env conc T s with
      | .iterCont s1 => some s1
      | _ => none)

/-! ## `connect.py`: the M3UA ASPUP builder -/

/-- `struct.pack("!B", x)`: one byte, raising `struct.error` when the
value is out of range. -/
def packB (x : Nat) : Option (List Nat) :=
  if x < 256 then some [x] else none

/-- `struct.pack("!I", x)`: four bytes, big endian, raising `struct.error`
when the value is out of range. -/
def packIbe (x : Nat) : Option (List Nat) :=
  if x < 2 ^ 32 then
    some [x / 2 ^ 24 % 256, x / 2 ^ 16 % 256, x / 2 ^ 8 % 256, x % 256]
  else none

/-- `struct.pack("!BBBBI", b1, b2, b3, b4, v)` (connect.py line 14). -/
def pack_BBBBI (b1 b2 b3 b4 v : Nat) : Option (List Nat) := do
  let x1 ← packB b1
  let x2 ← packB b2
  let x3 ← packB b3
  let x4 ← packB b4
  let x5 ← packIbe v
  return x1 ++ x2 ++ x3 ++ x4 ++ x5

/-- `build_m3ua_aspup()` (connect.py lines 6-15): version 0x01, reserved
0x00, message class 0x03 (ASPSM), message type 0x01 (ASPUP), length 8. -/
def build_m3ua_aspup : Option (List Nat) :=
  pack_BBBBI 0x01 0x00 0x03 0x01 8

/-- The unsigned big-endian value of a byte string. -/
def beValue (bytes : List Nat) : Nat :=
  bytes.foldl (fun acc b => acc * 256 + b) 0

/-! ## The well-formedness invariant of the event loop

`WF` collects the structural facts that the Python state keeps by
construction: the selector's registered set is exactly the key set of the
`in_flight` dict; socket identifiers are allocated in strictly increasing
order; every created socket is, at any time, either still in flight or
already closed (exactly one of the two); the resolution log and the close
log walk in lockstep; and `results` is exactly the targets of the
resolutions with zero `SO_ERROR`. -/

structure WF (s : ScanState) : Prop where
  reg : s.registered = s.in_flight.map Attempt.sock
  bound : ∀ p ∈ s.opened, p.1 < s.nextSock
  mono : (s.opened.map Prod.fst).Pairwise (· < ·)
  acct : s.opened.Perm
    ((s.resolved.map fun r => (r.sock, r.target)) ++
      s.in_flight.map fun a => (a.sock, a.target))
  resClosed : s.resolved.map ResEntry.sock = s.closed
  res : s.results =
    (s.resolved.filter fun r => decide (r.kind = ResKind.success)).map ResEntry.target

/-! ## Auxiliary environments used by witnesses and counterexamples -/

/-- A fixed-per-target-outcome environment: the target of an attempt
becomes writable `w target` polls after its admission (`none` = never,
e.g. a black-holed endpoint), its pending `SO_ERROR` is `e target`, and
wall time advances by `δ` per loop iteration (the `select` granularity).
Socket creation never fails. -/
def envOf (w : Target → Option Nat) (e : Target → Nat) (δ : ℤ) : Env where
  startClock s := s.selIdx * δ
  nowClock s := (s.selIdx + 1) * δ
  readyAt s := (s.in_flight.filter (fun a =>
    match w a.target with
    | some d => decide ((s.selIdx + 1 : ℤ) * δ - a.start ≥ d * δ)
    | none => false)).map Attempt.sock
  soErr st id :=
    match st.in_flight.find? (fun b => b.sock == id) with
    | some a => e a.target
    | none => 0
  sockFail _ := false

/-- The same environment as `base`, except that the call of
`socket.socket` made when `n` sockets exist raises `OSError`
(file-descriptor exhaustion). -/
def withFailAt (base : Env) (n : Nat) : Env :=
  { base with sockFail := fun s => s.nextSock == n }

/-- Outcome environment with per-socket pending errors: like `envOf` but
the `SO_ERROR` read for a socket is a fixed function of the socket alone,
independent of the machine state. -/
def envOfE (w : Target → Option Nat) (E : Nat → Nat) (δ : ℤ) : Env :=
  { envOf w (fun _ => 0) δ with soErr := fun _ id => E id }

/-- All resolutions recorded so far are consistent with the pending-error
oracle `E`: a success was recorded exactly for a zero `SO_ERROR` read, a
failure exactly for a non-zero one. -/
def KindsOk (E : Nat → Nat) (s : ScanState) : Prop :=
  ∀ r ∈ s.resolved, (r.kind = ResKind.success → E r.sock = 0) ∧
    (r.kind = ResKind.failure → E r.sock ≠ 0)

/-- Timed invariant for termination: under clock traces `A` (admission
stamps) and `N` (now samples) indexed by the iteration counter, every
in-flight attempt was stamped from `A` at its admission iteration, was
admitted in an earlier iteration, and has not yet outlived the expiry
horizon `D` (it would have been swept otherwise). -/
def TimedInv (A : Nat → ℤ) (D : Nat) (s : ScanState) : Prop :=
  ∀ a ∈ s.in_flight, a.start = A a.bornAt ∧ a.bornAt < s.selIdx ∧
    s.selIdx ≤ a.bornAt + D

/-- Iterations left before the whole in-flight set must have expired. -/
def slackOf (D : Nat) (s : ScanState) : Nat :=
  (s.in_flight.map (fun a => a.bornAt + D + 1 - s.selIdx)).foldr max 0

/-- Termination measure of the event loop: pending work weighted by the
expiry horizon, plus the slack of the current in-flight set. -/
def nuOf (D : Nat) (s : ScanState) : Nat :=
  s.tasks.length * (D + 2) + slackOf D s

/-- The poll age (number of `select` rounds after admission, starting at
1) at which an attempt with writable-age `w` and timeout age `TA` is
resolved in the fixed-outcome environment. -/
def ageOf (w : Option Nat) (TA : Nat) : Nat :=
  match w with
  | none => TA
  | some d => min (max d 1) TA

/-- How an attempt with fixed outcome `(w, e)` is resolved under timeout
age `TA`: writable before expiry resolves by the pending error, otherwise
the expiry sweep resolves it as a timeout. -/
def resolveKind (w : Option Nat) (e : Nat) (TA : Nat) : ResKind :=
  match w with
  | none => ResKind.timeout
  | some d =>
    if max d 1 ≤ TA then (if e = 0 then ResKind.success else ResKind.failure)
    else ResKind.timeout

/-- The predicted `(target, resolution)` pair of a target under the
fixed-outcome environment. -/
def pairF (w : Target → Option Nat) (e : Target → Nat) (TA : Nat)
    (t : Target) : Target × ResKind :=
  (t, resolveKind (w t) (e t) TA)

/-- Invariant of the event loop (at iteration entry) under the
fixed-outcome environment `envOf w e δ` with timeout `TA * δ`: the opened
targets are exactly the consumed prefix of the producer; each in-flight
attempt was stamped `bornAt * δ` in an earlier iteration and has not yet
reached its resolution age; and the recorded resolutions plus the
predicted resolutions of the in-flight attempts account, as a multiset,
for exactly the consumed targets with their predicted resolutions. -/
structure FixedEnvInv (w : Target → Option Nat) (e : Target → Nat) (TA : Nat)
    (targets : List Target) (δ : ℤ) (s : ScanState) : Prop where
  tasks_drop : ∃ m, s.tasks = targets.drop m ∧ s.opened.map Prod.snd = targets.take m
  flight : ∀ a ∈ s.in_flight, a.start = (a.bornAt : ℤ) * δ ∧ a.bornAt < s.selIdx ∧
    s.selIdx - a.bornAt < ageOf (w a.target) TA
  acct : (s.resolved.map (fun r => (r.target, r.kind)) ++
      s.in_flight.map (fun a => pairF w e TA a.target)).Perm
    ((s.opened.map Prod.snd).map (pairF w e TA))

/-- A wall-clock trace: one admission at time 0, never-writable target,
`time.time()` advancing by 1 second per poll. -/
def envWallA : Env where
  startClock s := s.selIdx
  nowClock s := s.selIdx + 1
  readyAt _ := []
  soErr _ _ := 0
  sockFail _ := false

/-- The same physical execution as `envWallA` except that the wall clock
is adjusted 100 seconds backwards between the admission stamp and the
`now` samples: `time.time()` returns values 100 smaller from then on,
although the same real time has elapsed. -/
def envWallB : Env :=
  { envWallA with nowClock := fun s => (s.selIdx : ℤ) + 1 - 100 }

/-! ## C10: the ASPUP message layout -/

/-- C10: `build_m3ua_aspup` returns a byte string of exactly 8 bytes,
packed big-endian as version `0x01`, reserved `0x00`, message class `0x03`
(ASPSM), message type `0x01` (ASPUP), followed by a 4-byte length field
whose value (8) equals the actual length of the returned message. -/
theorem build_m3ua_aspup_spec :
    build_m3ua_aspup = some [0x01, 0x00, 0x03, 0x01, 0x00, 0x00, 0x00, 0x08] ∧
    build_m3ua_aspup.map List.length = some 8 ∧
    build_m3ua_aspup.map (fun msg => beValue (msg.drop 4)) = some 8 := by
  decide

/-! ## C6: the target sequence producer -/

theorem tasksOf_length (ips : List String) (ports : List Nat) :
    (tasksOf ips ports).length = ips.length * ports.length := by
  induction ips with
  | nil => simp [tasksOf]
  | cons ip rest ih =>
    simp only [tasksOf, List.flatMap_cons, List.length_append, List.length_map,
      List.length_cons] at *
    rw [ih]; ring

theorem tasksOf_getElem? (ips : List String) (ports : List Nat)
    (i j : Nat) (hi : i < ips.length) (hj : j < ports.length) :
    (tasksOf ips ports)[i * ports.length + j]? =
      some (ips.get ⟨i, hi⟩, ports.get ⟨j, hj⟩) := by
  induction ips generalizing i with
  | nil => simp at hi
  | cons ip rest ih =>
    cases i with
    | zero =>
      simp only [tasksOf, List.flatMap_cons, Nat.zero_mul, Nat.zero_add]
      rw [List.getElem?_append_left (by simpa using hj)]
      simp [hj]
    | succ i =>
      have hi' : i < rest.length := by simpa using hi
      have harith : (i + 1) * ports.length + j =
          ports.length + (i * ports.length + j) := by ring
      simp only [tasksOf, List.flatMap_cons, harith]
      rw [List.getElem?_append_right (by simp)]
      simpa using ih i hi'

theorem tasksOf_nodup (ips : List String) (ports : List Nat)
    (hips : ips.Nodup) (hports : ports.Nodup) : (tasksOf ips ports).Nodup := by
  rw [tasksOf, List.nodup_flatMap]
  constructor
  · intro ip _
    exact hports.map (fun a b hab => by simpa using hab)
  · refine hips.imp ?_
    intro a b hab
    simp only [Function.onFun, List.disjoint_left]
    rintro ⟨x, y⟩ hx hy
    simp only [List.mem_map] at hx hy
    obtain ⟨p, -, hp⟩ := hx
    obtain ⟨q, -, hq⟩ := hy
    exact hab ((congrArg Prod.fst hp).trans (congrArg Prod.fst hq).symm)

theorem tasksOf_eq_nil_iff (ips : List String) (ports : List Nat) :
    tasksOf ips ports = [] ↔ ips = [] ∨ ports = [] := by
  induction ips with
  | nil => simp [tasksOf]
  | cons ip rest ih =>
    simp only [tasksOf, List.flatMap_cons] at ih ⊢
    constructor
    · intro h
      obtain ⟨h1, -⟩ := List.append_eq_nil.mp h
      exact Or.inr (List.map_eq_nil_iff.mp h1)
    · rintro (h | h)
      · exact absurd h (List.cons_ne_nil ip rest)
      · subst h
        simpa using ih.mpr (Or.inr rfl)

/-- C6: the target sequence producer (`tasks = ((ip, port) for ip in ips
for port in ports)`, scan.py line 88) yields a finite sequence of
`(host, port)` pairs in a fixed deterministic order: outer iteration over
hosts in the order supplied, inner iteration over ports in the order
supplied, each pair produced exactly once (the supplied host and port
lists being duplicate-free, as `expand_ips` and `expand_ports` produce
them), with exhaustion observable (the remaining sequence is `[]` exactly
when one of the factors is empty). -/
theorem tasksOf_producer_spec (ips : List String) (ports : List Nat)
    (i j : Nat) (hi : i < ips.length) (hj : j < ports.length)
    (hips : ips.Nodup) (hports : ports.Nodup) :
    (tasksOf ips ports).length = ips.length * ports.length ∧
    (tasksOf ips ports)[i * ports.length + j]? =
      some (ips.get ⟨i, hi⟩, ports.get ⟨j, hj⟩) ∧
    ((tasksOf ips ports).Nodup ∧
      (ips.get ⟨i, hi⟩, ports.get ⟨j, hj⟩) ∈ tasksOf ips ports) ∧
    (tasksOf ips ports = [] ↔ ips = [] ∨ ports = []) := by
  refine ⟨tasksOf_length ips ports, tasksOf_getElem? ips ports i j hi hj,
    ⟨tasksOf_nodup ips ports hips hports, ?_⟩, tasksOf_eq_nil_iff ips ports⟩
  rw [tasksOf]
  simp only [List.mem_flatMap, List.mem_map]
  exact ⟨ips.get ⟨i, hi⟩, ips.get_mem _ _, ports.get ⟨j, hj⟩, ports.get_mem _ _, rfl⟩

/-- Witness for C6 at a concrete input. -/
theorem tasksOf_producer_witness :
    (tasksOf ["10.0.0.1", "10.0.0.2"] [2905, 2906]).length = 2 * 2 ∧
    (tasksOf ["10.0.0.1", "10.0.0.2"] [2905, 2906])[1 * 2 + 0]? =
      some ("10.0.0.2", 2905) ∧
    ((tasksOf ["10.0.0.1", "10.0.0.2"] [2905, 2906]).Nodup ∧
      ("10.0.0.2", 2905) ∈ tasksOf ["10.0.0.1", "10.0.0.2"] [2905, 2906]) ∧
    (tasksOf ["10.0.0.1", "10.0.0.2"] [2905, 2906] = [] ↔
      (["10.0.0.1", "10.0.0.2"] : List String) = [] ∨ ([2905, 2906] : List Nat) = []) :=
  tasksOf_producer_spec ["10.0.0.1", "10.0.0.2"] [2905, 2906] 1 0
    (by decide) (by decide) (by decide) (by decide)

/-! ## Basic consequences of well-formedness -/

theorem WF.initState (ips : List String) (ports : List Nat) :
    WF (Scan.initState ips ports) :=
  ⟨rfl, by simp [Scan.initState], by simp [Scan.initState], by simp [Scan.initState],
    rfl, rfl⟩

/-- The socket identifiers ever opened are pairwise distinct. -/
theorem WF.opened_nodup {s : ScanState} (h : WF s) :
    (s.opened.map Prod.fst).Nodup :=
  h.mono.imp Nat.ne_of_lt

/-- All resolved socket identifiers followed by all in-flight socket
identifiers: pairwise distinct. -/
theorem WF.socks_nodup {s : ScanState} (h : WF s) :
    (s.resolved.map ResEntry.sock ++ s.in_flight.map Attempt.sock).Nodup := by
  have h2 := (h.acct.map Prod.fst).nodup_iff.mp h.opened_nodup
  rw [List.map_append, List.map_map, List.map_map] at h2
  exact h2

/-- The in-flight socket identifiers are pairwise distinct. -/
theorem WF.in_flight_nodup {s : ScanState} (h : WF s) :
    (s.in_flight.map Attempt.sock).Nodup :=
  (List.Nodup.sublist (List.sublist_append_right _ _)) h.socks_nodup

/-- Closed socket identifiers are pairwise distinct: no double close. -/
theorem WF.closed_nodup {s : ScanState} (h : WF s) : s.closed.Nodup := by
  rw [← h.resClosed]
  exact (List.Nodup.sublist (List.sublist_append_left _ _)) h.socks_nodup

/-- No in-flight socket has been closed. -/
theorem WF.in_flight_not_closed {s : ScanState} (h : WF s) :
    ∀ a ∈ s.in_flight, a.sock ∉ s.closed := by
  intro a ha hc
  rw [← h.resClosed] at hc
  exact (List.disjoint_of_nodup_append h.socks_nodup) hc
    (List.mem_map_of_mem Attempt.sock ha)

/-! ## Specification of the admission loop `refill` -/

/-- A full in-flight set admits nothing: the admission loop is a no-op. -/
theorem refillGo_full {env : Env} {conc : Nat} {tks : List Target} {s : ScanState}
    (h : conc ≤ s.in_flight.length) : refillGo env conc tks s = .ok s := by
  cases tks with
  | nil => rfl
  | cons t rest =>
    rw [refillGo, if_neg (Nat.not_lt.mpr h)]

theorem refill_full {env : Env} {conc : Nat} {s : ScanState}
    (h : conc ≤ s.in_flight.length) : refill env conc s = .ok s :=
  refillGo_full h

/-- An exhausted producer admits nothing (`StopIteration` is caught). -/
theorem refill_of_tasks_nil {env : Env} {conc : Nat} {s : ScanState}
    (h : s.tasks = []) : refill env conc s = .ok s := by
  rw [refill, h]
  rfl

/-- On normal return, the admission loop has stopped either because the
producer is exhausted or because the concurrency cap is reached. -/
theorem refillGo_stop {env : Env} {conc : Nat} :
    ∀ {tks : List Target} {s s1 : ScanState}, s.tasks = tks →
      refillGo env conc tks s = .ok s1 →
      s1.tasks = [] ∨ conc ≤ s1.in_flight.length := by
  intro tks
  induction tks with
  | nil =>
    intro s s1 hsync h
    cases h
    exact Or.inl hsync
  | cons t rest ih =>
    intro s s1 hsync h
    rw [refillGo] at h
    by_cases hlt : s.in_flight.length < conc
    · rw [if_pos hlt] at h
      by_cases hfail : env.sockFail s
      · rw [if_pos hfail] at h
        cases h
      · rw [if_neg hfail] at h
        exact ih rfl h
    · rw [if_neg hlt] at h
      cases h
      exact Or.inr (Nat.le_of_not_lt hlt)

theorem refill_stop {env : Env} {conc : Nat} {s s1 : ScanState}
    (h : refill env conc s = .ok s1) :
    s1.tasks = [] ∨ conc ≤ s1.in_flight.length :=
  refillGo_stop rfl h

/-- The admission loop preserves the concurrency bound (normal return). -/
theorem refillGo_ok_len {env : Env} {conc : Nat} :
    ∀ {tks : List Target} {s s1 : ScanState},
      refillGo env conc tks s = .ok s1 → s.in_flight.length ≤ conc →
      s1.in_flight.length ≤ conc := by
  intro tks
  induction tks with
  | nil =>
    intro s s1 h hle
    cases h
    exact hle
  | cons t rest ih =>
    intro s s1 h hle
    rw [refillGo] at h
    by_cases hlt : s.in_flight.length < conc
    · rw [if_pos hlt] at h
      by_cases hfail : env.sockFail s
      · rw [if_pos hfail] at h
        cases h
      · rw [if_neg hfail] at h
        exact ih h (by simpa using hlt)
    · rw [if_neg hlt] at h
      cases h
      exact hle

theorem refill_ok_len {env : Env} {conc : Nat} {s s1 : ScanState}
    (h : refill env conc s = .ok s1) (hle : s.in_flight.length ≤ conc) :
    s1.in_flight.length ≤ conc :=
  refillGo_ok_len h hle

/-- The admission loop preserves the concurrency bound (abort). -/
theorem refillGo_err_len {env : Env} {conc : Nat} :
    ∀ {tks : List Target} {s sE : ScanState},
      refillGo env conc tks s = .error sE → s.in_flight.length ≤ conc →
      sE.in_flight.length ≤ conc := by
  intro tks
  induction tks with
  | nil =>
    intro s sE h hle
    cases h
  | cons t rest ih =>
    intro s sE h hle
    rw [refillGo] at h
    by_cases hlt : s.in_flight.length < conc
    · rw [if_pos hlt] at h
      by_cases hfail : env.sockFail s
      · rw [if_pos hfail] at h
        cases h
        exact hle
      · rw [if_neg hfail] at h
        exact ih h (by simpa using hlt)
    · rw [if_neg hlt] at h
      cases h

theorem refill_err_len {env : Env} {conc : Nat} {s sE : ScanState}
    (h : refill env conc s = .error sE) (hle : s.in_flight.length ≤ conc) :
    sE.in_flight.length ≤ conc :=
  refillGo_err_len h hle

/-- Either the admission loop admits nothing (state unchanged) or it
consumes at least one target. -/
theorem refillGo_progress {env : Env} {conc : Nat} :
    ∀ {tks : List Target} {s s1 : ScanState}, s.tasks = tks →
      refillGo env conc tks s = .ok s1 →
      s1 = s ∨ s1.tasks.length < s.tasks.length := by
  intro tks
  induction tks with
  | nil =>
    intro s s1 hsync h
    cases h
    exact Or.inl rfl
  | cons t rest ih =>
    intro s s1 hsync h
    rw [refillGo] at h
    by_cases hlt : s.in_flight.length < conc
    · rw [if_pos hlt] at h
      by_cases hfail : env.sockFail s
      · rw [if_pos hfail] at h
        cases h
      · rw [if_neg hfail] at h
        refine Or.inr ?_
        rcases ih rfl h with h1 | h1
        · rw [h1, hsync]
          simp
        · rw [hsync]
          simp only [List.length_cons]
          have h2 : s1.tasks.length < rest.length := by simpa using h1
          omega
    · rw [if_neg hlt] at h
      cases h
      exact Or.inl rfl

theorem refill_progress {env : Env} {conc : Nat} {s s1 : ScanState}
    (h : refill env conc s = .ok s1) :
    s1 = s ∨ s1.tasks.length < s.tasks.length :=
  refillGo_progress rfl h

/-- Full description of a successful admission loop run: the fields the
loop does not touch are unchanged; `new` attempts are appended to the
in-flight set, registered, and logged as opened, in producer order, with
consecutive socket identifiers, stamped with the current iteration index
and a start time read from the clock in a state of the current
iteration. -/
theorem refillGo_ok_spec {env : Env} {conc : Nat} :
    ∀ {tks : List Target} {s s1 : ScanState}, s.tasks = tks →
      refillGo env conc tks s = .ok s1 →
    s1.results = s.results ∧ s1.resolved = s.resolved ∧ s1.closed = s.closed ∧
    s1.selIdx = s.selIdx ∧
    ∃ new : List Attempt,
      s1.in_flight = s.in_flight ++ new ∧
      s1.opened = s.opened ++ new.map (fun a => (a.sock, a.target)) ∧
      s1.registered = s.registered ++ new.map Attempt.sock ∧
      new.map Attempt.target = s.tasks.take new.length ∧
      s1.tasks = s.tasks.drop new.length ∧
      new.map Attempt.sock = List.range' s.nextSock new.length ∧
      s1.nextSock = s.nextSock + new.length ∧
      ∀ a ∈ new, a.bornAt = s.selIdx ∧
        ∃ sMid : ScanState, sMid.selIdx = s.selIdx ∧ sMid.nextSock = a.sock ∧
          a.start = env.startClock sMid := by
  intro tks
  induction tks with
  | nil =>
    intro s s1 hsync h
    cases h
    exact ⟨rfl, rfl, rfl, rfl, [], by simp [hsync]⟩
  | cons t rest ih =>
    intro s s1 hsync h
    rw [refillGo] at h
    by_cases hlt : s.in_flight.length < conc
    · rw [if_pos hlt] at h
      by_cases hfail : env.sockFail s
      · rw [if_pos hfail] at h
        cases h
      · rw [if_neg hfail] at h
        obtain ⟨h1, h2, h3, h4, new, hIF, hOp, hReg, hTk, hDr, hSk, hNx, hAll⟩ :=
          ih rfl h
        refine ⟨h1, h2, h3, h4,
          ⟨s.nextSock, t, env.startClock s, s.selIdx⟩ :: new,
          ?_, ?_, ?_, ?_, ?_, ?_, ?_, ?_⟩
        · rw [hIF]
          simp
        · rw [hOp]
          simp
        · rw [hReg]
          simp
        · rw [hsync]
          simpa using hTk
        · rw [hDr, hsync]
          simp
        · simp only [List.map_cons, List.length_cons, List.range'_succ]
          simpa using hSk
        · simp only [List.length_cons] at *
          omega
        · intro a ha
          rcases List.mem_cons.mp ha with rfl | ha
          · exact ⟨rfl, s, rfl, rfl, rfl⟩
          · exact hAll a ha
    · rw [if_neg hlt] at h
      cases h
      exact ⟨rfl, rfl, rfl, rfl, [], by simp⟩

theorem refill_ok_spec {env : Env} {conc : Nat} {s s1 : ScanState}
    (h : refill env conc s = .ok s1) :
    s1.results = s.results ∧ s1.resolved = s.resolved ∧ s1.closed = s.closed ∧
    s1.selIdx = s.selIdx ∧
    ∃ new : List Attempt,
      s1.in_flight = s.in_flight ++ new ∧
      s1.opened = s.opened ++ new.map (fun a => (a.sock, a.target)) ∧
      s1.registered = s.registered ++ new.map Attempt.sock ∧
      new.map Attempt.target = s.tasks.take new.length ∧
      s1.tasks = s.tasks.drop new.length ∧
      new.map Attempt.sock = List.range' s.nextSock new.length ∧
      s1.nextSock = s.nextSock + new.length ∧
      ∀ a ∈ new, a.bornAt = s.selIdx ∧
        ∃ sMid : ScanState, sMid.selIdx = s.selIdx ∧ sMid.nextSock = a.sock ∧
          a.start = env.startClock sMid :=
  refillGo_ok_spec rfl h

/-! ## Specification of the readiness-processing loop `resolveReady` -/

/-- Decomposition of a successful `find?` on the in-flight list. -/
theorem find?_sock_split {l : List Attempt} {x : Nat} {a : Attempt}
    (h : l.find? (fun b => b.sock == x) = some a) :
    ∃ l₁ l₂, l = l₁ ++ a :: l₂ ∧ (∀ b ∈ l₁, b.sock ≠ x) ∧ a.sock = x ∧
      l.eraseP (fun b => b.sock == x) = l₁ ++ l₂ := by
  induction l with
  | nil => cases h
  | cons c l ih =>
    by_cases hc : c.sock = x
    · rw [List.find?_cons_of_pos _ (by simpa using hc)] at h
      cases h
      exact ⟨[], l, rfl, by simp, hc,
        List.eraseP_cons_of_pos (by simpa using hc)⟩
    · rw [List.find?_cons_of_neg _ (by simpa using hc)] at h
      obtain ⟨l₁, l₂, hl, hl₁, hax, he⟩ := ih h
      exact ⟨c :: l₁, l₂, by rw [hl]; rfl, by
          intro b hb
          rcases List.mem_cons.mp hb with rfl | hb
          · exact hc
          · exact hl₁ b hb,
        hax, by rw [List.eraseP_cons_of_neg (by simpa using hc), he]; rfl⟩

/-- `find?` skips over an element that does not satisfy the predicate. -/
theorem find?_middle_skip {a : Attempt} {p : Attempt → Bool}
    (hp : ¬ p a = true) (l₁ l₂ : List Attempt) :
    (l₁ ++ a :: l₂).find? p = (l₁ ++ l₂).find? p := by
  induction l₁ with
  | nil => simp [List.find?_cons_of_neg _ hp]
  | cons c l₁ ih =>
    by_cases hc : p c
    · simp [List.find?_cons_of_pos _ hc]
    · simpa [List.find?_cons_of_neg _ hc] using ih

/-- Popping attempts is insensitive to removing an attempt whose socket
identifier is not asked for. -/
theorem popAttempts_skip {a : Attempt} {ready : List Nat}
    (hp : a.sock ∉ ready) (l₁ l₂ : List Attempt) :
    popAttempts (l₁ ++ a :: l₂) ready = popAttempts (l₁ ++ l₂) ready := by
  unfold popAttempts
  refine List.filterMap_congr ?_
  intro id hid
  exact find?_middle_skip (by simp; rintro rfl; exact hp hid) l₁ l₂

/-- Full description of the readiness-processing loop, under the selector
contract (every ready identifier is an in-flight key, no duplicates) and
the key-uniqueness of the in-flight dict.  `Ef` gives the pending
`SO_ERROR` of each popped attempt. -/
theorem resolveReady_spec {env : Env} (Ef : Attempt → Nat)
    (hE : ∀ st : ScanState, ∀ a : Attempt,
      st.in_flight.find? (fun b => b.sock == a.sock) = some a →
        env.soErr st a.sock = Ef a) :
    ∀ (ready : List Nat) (s : ScanState),
    (∀ id ∈ ready, id ∈ s.in_flight.map Attempt.sock) →
    ready.Nodup →
    (s.in_flight.map Attempt.sock).Nodup →
    s.registered = s.in_flight.map Attempt.sock →
    (resolveReady env ready s = { s with
        in_flight := s.in_flight.filter (fun a => decide (a.sock ∉ ready)),
        registered := (s.in_flight.filter
          (fun a => decide (a.sock ∉ ready))).map Attempt.sock,
        results := s.results ++ ((popAttempts s.in_flight ready).filter
          (fun a => decide (Ef a = 0))).map Attempt.target,
        resolved := s.resolved ++
          (popAttempts s.in_flight ready).map (fun a => entryFor (Ef a) a),
        closed := s.closed ++ (popAttempts s.in_flight ready).map Attempt.sock }) ∧
    (popAttempts s.in_flight ready).map Attempt.sock = ready ∧
    (popAttempts s.in_flight ready).Perm
      (s.in_flight.filter (fun a => decide (a.sock ∈ ready))) := by
  intro ready
  induction ready with
  | nil =>
    intro s hsub hnd hsk hreg
    refine ⟨?_, by simp [popAttempts], by
      refine (List.filter_eq_nil_iff.mpr ?_).symm ▸ List.Perm.refl _
      intro a ha
      simp⟩
    simp only [resolveReady, popAttempts, List.filterMap_nil, List.map_nil,
      List.append_nil, List.filter_nil]
    have h1 : s.in_flight.filter (fun a => decide (a.sock ∉ ([] : List Nat))) =
        s.in_flight := List.filter_eq_self.mpr (fun a _ => by simp)
    rw [h1, ← hreg]
  | cons id rest ih =>
    intro s hsub hnd hsk hreg
    have hmem : id ∈ s.in_flight.map Attempt.sock := hsub id (by simp)
    rcases hf : s.in_flight.find? (fun b => b.sock == id) with - | a
    · exfalso
      rw [List.find?_eq_none] at hf
      obtain ⟨b, hb, hbs⟩ := List.mem_map.mp hmem
      exact hf b hb (by simpa using hbs)
    obtain ⟨l₁, l₂, hl, hl₁, hax, he⟩ := find?_sock_split hf
    have hid_rest : id ∉ rest := (List.nodup_cons.mp hnd).1
    have hrest_nd : rest.Nodup := (List.nodup_cons.mp hnd).2
    -- socket ids of l₁ and l₂ differ from id
    have hl₂ : ∀ b ∈ l₂, b.sock ≠ id := by
      intro b hb
      have := hsk
      rw [hl, List.map_append, List.map_cons] at this
      have h2 := (List.nodup_append.mp this).2
      have h3 := (List.nodup_cons.mp h2.1).1
      intro hb2
      exact h3 (hax ▸ hb2 ▸ List.mem_map_of_mem Attempt.sock hb)
    -- the state after popping a
    set sMid : ScanState := { s with
      in_flight := s.in_flight.eraseP (fun b => b.sock == id),
      registered := s.registered.erase id,
      results := if env.soErr s id = 0 then s.results ++ [a.target] else s.results,
      resolved := s.resolved ++ [entryFor (env.soErr s id) a],
      closed := s.closed ++ [id] } with hsMid
    have hstep : resolveReady env (id :: rest) s = resolveReady env rest sMid := by
      rw [resolveReady, hf]
    have hErr : env.soErr s id = Ef a := hax ▸ hE s a (hax ▸ hf)
    have hWipe : s.in_flight.eraseP (fun b => b.sock == id) = l₁ ++ l₂ := he
    have hRegMid : sMid.registered = sMid.in_flight.map Attempt.sock := by
      rw [hsMid]
      show s.registered.erase id = (s.in_flight.eraseP (fun b => b.sock == id)).map _
      rw [hWipe, hreg, hl, List.map_append, List.map_cons, hax,
        List.erase_append_right _ (by
          simp only [List.mem_map]
          rintro ⟨b, hb, hbs⟩
          exact hl₁ b hb hbs),
        List.erase_cons_head, List.map_append]
    have hSubMid : ∀ i ∈ rest, i ∈ sMid.in_flight.map Attempt.sock := by
      intro i hi
      have h1 : i ∈ s.in_flight.map Attempt.sock := hsub i (by simp [hi])
      have h2 : i ≠ id := fun hEq => hid_rest (hEq ▸ hi)
      rw [hl, List.map_append, List.map_cons, hax] at h1
      show i ∈ (s.in_flight.eraseP _).map _
      rw [hWipe, List.map_append]
      rcases List.mem_append.mp h1 with h3 | h3
      · exact List.mem_append_left _ h3
      · rcases List.mem_cons.mp h3 with h4 | h4
        · exact absurd h4 h2
        · exact List.mem_append_right _ h4
    have hSkMid : (sMid.in_flight.map Attempt.sock).Nodup := by
      show ((s.in_flight.eraseP _).map _).Nodup
      rw [hWipe]
      refine List.Nodup.sublist (List.Sublist.map _ ?_) hsk
      rw [hl]
      exact (List.sublist_cons_self a l₂).append_left l₁
    obtain ⟨ihEq, ihSock, ihPerm⟩ := ih sMid hSubMid hrest_nd hSkMid hRegMid
    -- popAttempts over the original list
    have hPopMid : popAttempts sMid.in_flight rest = popAttempts s.in_flight rest := by
      show popAttempts (s.in_flight.eraseP _) rest = _
      rw [hWipe, ← popAttempts_skip (hax.symm ▸ hid_rest) l₁ l₂, ← hl]
    have hPop : popAttempts s.in_flight (id :: rest) =
        a :: popAttempts sMid.in_flight rest := by
      rw [hPopMid]
      show List.filterMap _ (id :: rest) = _
      rw [List.filterMap_cons, hf]
      rfl
    -- kept in-flight entries over the original list
    have hKeep : sMid.in_flight.filter (fun b => decide (b.sock ∉ rest)) =
        s.in_flight.filter (fun b => decide (b.sock ∉ (id :: rest))) := by
      show (s.in_flight.eraseP _).filter _ = _
      rw [hWipe, hl, List.filter_append, List.filter_append, List.filter_cons]
      have ha2 : (decide (a.sock ∉ (id :: rest))) = false := by
        simp [hax]
      rw [ha2, if_neg (by simp)]
      congr 1
      · refine List.filter_congr ?_
        intro b hb
        simp only [decide_eq_decide, List.mem_cons, not_or]
        exact ⟨fun hr => ⟨hl₁ b hb, hr⟩, fun h2 => h2.2⟩
      · refine List.filter_congr ?_
        intro b hb
        simp only [decide_eq_decide, List.mem_cons, not_or]
        exact ⟨fun hr => ⟨hl₂ b hb, hr⟩, fun h2 => h2.2⟩
    refine ⟨?_, ?_, ?_⟩
    · rw [hstep, ihEq, hPop, hsMid]
      rw [hPopMid]
      simp only [List.map_cons, List.filter_cons]
      congr 1 <;> try rw [hKeep]
      · -- results
        rw [hErr]
        by_cases h0 : Ef a = 0
        · simp [h0, List.append_assoc]
        · simp [h0]
      · -- resolved
        rw [hErr, List.append_assoc]
        rfl
      · -- closed
        rw [List.append_assoc, hax]
        rfl
    · rw [hPop, List.map_cons, hax, ihSock]
    · rw [hPop, hPopMid]
      rw [hPopMid] at ihPerm
      refine List.Perm.trans (List.Perm.cons a ihPerm) ?_
      -- a :: kept-by-rest  ~  kept-by-(id :: rest) over the original list
      have hKeep2 : sMid.in_flight.filter (fun b => decide (b.sock ∈ rest)) =
          l₁.filter (fun b => decide (b.sock ∈ rest)) ++
            l₂.filter (fun b => decide (b.sock ∈ rest)) := by
        show (s.in_flight.eraseP _).filter _ = _
        rw [hWipe, List.filter_append]
      have hIn : s.in_flight.filter (fun b => decide (b.sock ∈ (id :: rest))) =
          l₁.filter (fun b => decide (b.sock ∈ rest)) ++
            a :: l₂.filter (fun b => decide (b.sock ∈ rest)) := by
        rw [hl, List.filter_append, List.filter_cons]
        have ha2 : (decide (a.sock ∈ (id :: rest))) = true := by simp [hax]
        rw [ha2, if_pos rfl]
        congr 1
        · refine List.filter_congr ?_
          intro b hb
          simp only [decide_eq_decide, List.mem_cons]
          exact ⟨fun h2 => h2.resolve_left (hl₁ b hb), fun h2 => Or.inr h2⟩
        · congr 1
          refine List.filter_congr ?_
          intro b hb
          simp only [decide_eq_decide, List.mem_cons]
          exact ⟨fun h2 => h2.resolve_left (hl₂ b hb), fun h2 => Or.inr h2⟩
      rw [hKeep2]
      rw [hIn]
      exact (List.perm_middle).symm

/-! ## The event loop preserves well-formedness -/

/-- Changing only the remaining task sequence keeps the state well-formed. -/
theorem WF.retask {x : ScanState} (h : WF x) (l : List Target) :
    WF { x with tasks := l } :=
  ⟨h.reg, h.bound, h.mono, h.acct, h.resClosed, h.res⟩

/-- A single admission (scan.py lines 106-111) keeps the state
well-formed. -/
theorem WF.enroll {x : ScanState} (h : WF x) (rest : List Target) (t : Target) (c : ℤ) :
    WF { x with
      tasks := rest,
      in_flight := x.in_flight ++ [⟨x.nextSock, t, c, x.selIdx⟩],
      registered := x.registered ++ [x.nextSock],
      opened := x.opened ++ [(x.nextSock, t)],
      nextSock := x.nextSock + 1 } := by
  refine ⟨?_, ?_, ?_, ?_, h.resClosed, h.res⟩
  · show x.registered ++ [x.nextSock] = (x.in_flight ++ [_]).map _
    rw [List.map_append, h.reg]
    rfl
  · intro p hp
    show p.1 < x.nextSock + 1
    rcases List.mem_append.mp hp with hp | hp
    · exact Nat.lt_succ_of_lt (h.bound p hp)
    · have : p = (x.nextSock, t) := by simpa using hp
      rw [this]
      exact Nat.lt_succ_self _
  · show ((x.opened ++ [(x.nextSock, t)]).map Prod.fst).Pairwise (· < ·)
    rw [List.map_append]
    refine List.pairwise_append.mpr ⟨h.mono, by simp, ?_⟩
    intro u hu v hv
    obtain ⟨p, hp, hpu⟩ := List.mem_map.mp hu
    have hv2 : v = x.nextSock := by simpa using hv
    rw [hv2, ← hpu]
    exact h.bound p hp
  · show (x.opened ++ [(x.nextSock, t)]).Perm
      ((x.resolved.map fun r => (r.sock, r.target)) ++
        (x.in_flight ++ [(⟨x.nextSock, t, c, x.selIdx⟩ : Attempt)]).map
          fun a => (a.sock, a.target))
    rw [List.map_append, ← List.append_assoc]
    exact h.acct.append_right _

/-- The admission loop keeps the state well-formed, both on normal return
and when an admission exception aborts the run. -/
theorem refillGo_WF {env : Env} {conc : Nat} :
    ∀ {tks : List Target} {s : ScanState}, WF s →
      (∀ s1, refillGo env conc tks s = .ok s1 → WF s1) ∧
      (∀ sE, refillGo env conc tks s = .error sE → WF sE) := by
  intro tks
  induction tks with
  | nil =>
    intro s hW
    refine ⟨?_, ?_⟩ <;> intro s1 h
    · cases h
      exact hW
    · cases h
  | cons t rest ih =>
    intro s hW
    refine ⟨?_, ?_⟩ <;> intro s1 h <;> rw [refillGo] at h <;>
      by_cases hlt : s.in_flight.length < conc
    · rw [if_pos hlt] at h
      by_cases hfail : env.sockFail s
      · rw [if_pos hfail] at h
        cases h
      · rw [if_neg hfail] at h
        exact (ih (hW.enroll rest t _)).1 s1 h
    · rw [if_neg hlt] at h
      cases h
      exact hW
    · rw [if_pos hlt] at h
      by_cases hfail : env.sockFail s
      · rw [if_pos hfail] at h
        cases h
        exact hW.retask rest
      · rw [if_neg hfail] at h
        exact (ih (hW.enroll rest t _)).2 s1 h
    · rw [if_neg hlt] at h
      cases h

/-- The admission loop keeps the state well-formed on normal return. -/
theorem refill_WF_ok {env : Env} {conc : Nat} {s s1 : ScanState} (hWF : WF s)
    (h : refill env conc s = .ok s1) : WF s1 :=
  refillGo_WF hWF |>.1 s1 h

/-- The admission loop keeps the state well-formed when an admission
exception aborts the run. -/
theorem refill_WF_err {env : Env} {conc : Nat} {s sE : ScanState} (hWF : WF s)
    (h : refill env conc s = .error sE) : WF sE :=
  refillGo_WF hWF |>.2 sE h

/-- A single pop of a ready socket (scan.py lines 122-128) keeps the
state well-formed. -/
theorem WF.popStep {s : ScanState} (h : WF s) {id : Nat} {a : Attempt}
    (hf : s.in_flight.find? (fun b => b.sock == id) = some a) (err : Nat) :
    WF { s with
      in_flight := s.in_flight.eraseP (fun b => b.sock == id),
      registered := s.registered.erase id,
      results := if err = 0 then s.results ++ [a.target] else s.results,
      resolved := s.resolved ++ [entryFor err a],
      closed := s.closed ++ [id] } := by
  obtain ⟨l₁, l₂, hl, hl₁, hax, he⟩ := find?_sock_split hf
  refine ⟨?_, h.bound, h.mono, ?_, ?_, ?_⟩
  · show s.registered.erase id = (s.in_flight.eraseP _).map _
    rw [he, h.reg, hl, List.map_append, List.map_cons, hax,
      List.erase_append_right _ (by
        simp only [List.mem_map]
        rintro ⟨b, hb, hbs⟩
        exact hl₁ b hb hbs),
      List.erase_cons_head, List.map_append]
  · show s.opened.Perm ((s.resolved ++ [entryFor err a]).map _ ++
      (s.in_flight.eraseP _).map fun b => (b.sock, b.target))
    rw [he, List.map_append, List.append_assoc]
    refine h.acct.trans ?_
    rw [hl, List.map_append, List.map_cons]
    refine List.Perm.append_left _ ?_
    refine List.perm_middle.trans ?_
    rw [List.map_append]
    exact List.Perm.refl _
  · show (s.resolved ++ [entryFor err a]).map ResEntry.sock = s.closed ++ [id]
    rw [List.map_append, h.resClosed]
    simp [entryFor, hax]
  · show (if err = 0 then s.results ++ [a.target] else s.results) =
      ((s.resolved ++ [entryFor err a]).filter _).map ResEntry.target
    rw [List.filter_append, List.map_append, ← h.res]
    by_cases h0 : err = 0
    · simp [h0, entryFor]
    · simp [h0, entryFor]

/-- The readiness-processing loop keeps the state well-formed. -/
theorem resolveReady_WF {env : Env} :
    ∀ (ready : List Nat) (s : ScanState), WF s → WF (resolveReady env ready s) := by
  intro ready
  induction ready with
  | nil => exact fun s h => h
  | cons id rest ih =>
    intro s h
    rcases hf : s.in_flight.find? (fun b => b.sock == id) with - | a
    · rw [resolveReady, hf]
      exact ih s h
    · rw [resolveReady, hf]
      exact ih _ (h.popStep hf _)

/-- The readiness-processing loop never grows the in-flight set. -/
theorem resolveReady_length_le {env : Env} :
    ∀ (ready : List Nat) (s : ScanState),
      (resolveReady env ready s).in_flight.length ≤ s.in_flight.length := by
  intro ready
  induction ready with
  | nil => exact fun s => le_refl _
  | cons id rest ih =>
    intro s
    rcases hf : s.in_flight.find? (fun b => b.sock == id) with - | a
    · rw [resolveReady, hf]
      exact ih s
    · rw [resolveReady, hf]
      refine (ih _).trans ?_
      show (s.in_flight.eraseP _).length ≤ _
      apply List.length_eraseP_le

/-- The expiry sweep keeps the state well-formed. -/
theorem sweepLoop_WF {now T : ℤ} {s : ScanState} (h : WF s) :
    WF (sweepLoop now T s) := by
  have hinj := List.inj_on_of_nodup_map h.in_flight_nodup
  have hperm : (s.in_flight.filter (fun a => decide (T ≤ now - a.start)) ++
      s.in_flight.filter (fun a => decide (¬ T ≤ now - a.start))).Perm s.in_flight := by
    have h1 := List.filter_append_perm (fun a => decide (T ≤ now - a.start)) s.in_flight
    have h2 : (fun (a : Attempt) => !decide (T ≤ now - a.start)) =
        fun a => decide (¬ T ≤ now - a.start) := by
      funext a
      rw [decide_not]
    rw [h2] at h1
    exact h1
  refine ⟨?_, h.bound, h.mono, ?_, ?_, ?_⟩
  · show s.registered.filter _ = (s.in_flight.filter _).map _
    rw [h.reg, List.filter_map]
    refine congrArg _ (List.filter_congr ?_)
    intro b hb
    have hiff : b.sock ∈ (s.in_flight.filter
        (fun a => decide (T ≤ now - a.start))).map Attempt.sock ↔
        T ≤ now - b.start := by
      constructor
      · intro h2
        obtain ⟨c, hc, hcs⟩ := List.mem_map.mp h2
        obtain ⟨hc1, hc2⟩ := List.mem_filter.mp hc
        have hcb : c = b := hinj hc1 hb hcs
        rw [hcb] at hc2
        exact of_decide_eq_true hc2
      · intro h2
        exact List.mem_map_of_mem _ (List.mem_filter.mpr ⟨hb, decide_eq_true h2⟩)
    show decide _ = decide _
    rw [decide_eq_decide]
    exact not_congr hiff
  · show s.opened.Perm ((s.resolved ++ _).map _ ++ (s.in_flight.filter _).map _)
    rw [List.map_append, List.map_map, List.append_assoc]
    refine h.acct.trans (List.Perm.append_left _ ?_)
    have h2 := (hperm.map (fun a => (a.sock, a.target))).symm
    rw [List.map_append] at h2
    exact h2
  · show (s.resolved ++ _).map ResEntry.sock = s.closed ++ _
    rw [List.map_append, h.resClosed, List.map_map]
    rfl
  · show s.results = ((s.resolved ++ _).filter _).map ResEntry.target
    rw [List.filter_append]
    have h3 : ((s.in_flight.filter (fun a => decide (T ≤ now - a.start))).map
        (fun a => (⟨a.sock, a.target, ResKind.timeout⟩ : ResEntry))).filter
        (fun r => decide (r.kind = ResKind.success)) = [] := by
      refine List.filter_eq_nil_iff.mpr ?_
      intro r hr
      obtain ⟨a, -, rfl⟩ := List.mem_map.mp hr
      simp
    rw [h3, List.append_nil]
    exact h.res

/-- The expiry sweep never grows the in-flight set. -/
theorem sweepLoop_length_le (now T : ℤ) (s : ScanState) :
    (sweepLoop now T s).in_flight.length ≤ s.in_flight.length :=
  List.length_filter_le _ _

/-- The effective ready list satisfies the selector contract. -/
theorem readyEff_nodup (env : Env) (s : ScanState) : (readyEff env s).Nodup :=
  List.nodup_dedup _

theorem readyEff_sub (env : Env) (s : ScanState) :
    ∀ id ∈ readyEff env s, id ∈ s.registered := by
  intro id hid
  have h1 := List.mem_dedup.mp hid
  exact (List.mem_filter.mp h1).2 |> of_decide_eq_true

/-- Unfolding: an admission exception aborts the iteration. -/
theorem scanIter_err {env : Env} {conc : Nat} {T : ℤ} {s sE : ScanState}
    (hr : refill env conc s = .error sE) :
    scanIter env conc T s = .iterAbort sE := by
  rw [scanIter, hr]

/-- Unfolding: an empty in-flight set after refill exits the loop. -/
theorem scanIter_done {env : Env} {conc : Nat} {T : ℤ} {s s1 : ScanState}
    (hr : refill env conc s = .ok s1) (hE : s1.in_flight.isEmpty = true) :
    scanIter env conc T s = .iterDone s1 := by
  rw [scanIter, hr]
  exact if_pos hE

/-- Unfolding: a non-empty in-flight set runs select, readiness
processing and the expiry sweep, then continues. -/
theorem scanIter_cont {env : Env} {conc : Nat} {T : ℤ} {s s1 : ScanState}
    (hr : refill env conc s = .ok s1) (hE : ¬ s1.in_flight.isEmpty = true) :
    scanIter env conc T s = .iterCont
      { sweepLoop (env.nowClock s1) T (resolveReady env (readyEff env s1) s1) with
        selIdx := (sweepLoop (env.nowClock s1) T
          (resolveReady env (readyEff env s1) s1)).selIdx + 1 } := by
  rw [scanIter, hr]
  exact if_neg hE

/-- One full iteration of the event loop keeps the state well-formed,
whatever its outcome. -/
theorem scanIter_WF {env : Env} {conc : Nat} {T : ℤ} {s : ScanState} (h : WF s) :
    WF (scanIter env conc T s).state := by
  rcases hr : refill env conc s with sE | s1
  · rw [scanIter_err hr]
    exact refill_WF_err h hr
  · have h1 : WF s1 := refill_WF_ok h hr
    by_cases hE : s1.in_flight.isEmpty
    · rw [scanIter_done hr hE]
      exact h1
    · rw [scanIter_cont hr hE]
      have h2 : WF (resolveReady env (readyEff env s1) s1) :=
        resolveReady_WF _ _ h1
      have h3 := @sweepLoop_WF (env.nowClock s1) T _ h2
      exact ⟨h3.reg, h3.bound, h3.mono, h3.acct, h3.resClosed, h3.res⟩

/-! ## Propagation along the whole loop -/

/-- One full iteration preserves the concurrency bound. -/
theorem scanIter_len {env : Env} {conc : Nat} {T : ℤ} {s : ScanState}
    (h : s.in_flight.length ≤ conc) :
    (scanIter env conc T s).state.in_flight.length ≤ conc := by
  rcases hr : refill env conc s with sE | s1
  · rw [scanIter_err hr]
    exact refill_err_len hr h
  · have h1 := refill_ok_len hr h
    by_cases hE : s1.in_flight.isEmpty
    · rw [scanIter_done hr hE]
      exact h1
    · rw [scanIter_cont hr hE]
      show (sweepLoop _ _ _).in_flight.length ≤ conc
      exact le_trans (le_trans (sweepLoop_length_le _ _ _)
        (resolveReady_length_le _ _)) h1

/-- The concurrency bound holds at the entry of every iteration. -/
theorem stateAt_len {env : Env} {conc : Nat} {T : ℤ} {s0 : ScanState}
    (h0 : s0.in_flight.length ≤ conc) :
    ∀ k s', stateAt env conc T s0 k = some s' → s'.in_flight.length ≤ conc := by
  intro k
  induction k with
  | zero =>
    intro s' h
    cases h
    exact h0
  | succ k ih =>
    intro s' h
    rw [stateAt] at h
    rcases hk : stateAt env conc T s0 k with - | sMid
    · rw [hk] at h
      cases h
    · rw [hk, Option.some_bind] at h
      rcases hIt : scanIter env conc T sMid with s1 | s1 | s1 <;> rw [hIt] at h
      · cases h
      · cases h
        have h2 := @scanIter_len env conc T sMid (ih sMid hk)
        rw [hIt] at h2
        exact h2
      · cases h

/-- Well-formedness holds at the entry of every iteration. -/
theorem stateAt_WF {env : Env} {conc : Nat} {T : ℤ} {s0 : ScanState}
    (h0 : WF s0) :
    ∀ k s', stateAt env conc T s0 k = some s' → WF s' := by
  intro k
  induction k with
  | zero =>
    intro s' h
    cases h
    exact h0
  | succ k ih =>
    intro s' h
    rw [stateAt] at h
    rcases hk : stateAt env conc T s0 k with - | sMid
    · rw [hk] at h
      cases h
    · rw [hk, Option.some_bind] at h
      rcases hIt : scanIter env conc T sMid with s1 | s1 | s1 <;> rw [hIt] at h
      · cases h
      · cases h
        have h2 := @scanIter_WF env conc T sMid (ih sMid hk)
        rw [hIt] at h2
        exact h2
      · cases h

/-- The concurrency bound holds in the state carried by the outcome of
the whole run, for any fuel. -/
theorem scanLoop_len {env : Env} {conc : Nat} {T : ℤ} :
    ∀ (fuel : Nat) (s : ScanState), s.in_flight.length ≤ conc →
      (scanLoop env conc T fuel s).state.in_flight.length ≤ conc := by
  intro fuel
  induction fuel with
  | zero => exact fun s h => h
  | succ fuel ih =>
    intro s h
    rw [scanLoop]
    have h2 := @scanIter_len env conc T s h
    rcases hIt : scanIter env conc T s with s1 | s1 | s1 <;> rw [hIt] at h2
    · exact h2
    · exact ih s1 h2
    · exact h2

/-- Well-formedness holds in the state carried by the outcome of the
whole run, for any fuel. -/
theorem scanLoop_WF {env : Env} {conc : Nat} {T : ℤ} :
    ∀ (fuel : Nat) (s : ScanState), WF s →
      WF (scanLoop env conc T fuel s).state := by
  intro fuel
  induction fuel with
  | zero => exact fun s h => h
  | succ fuel ih =>
    intro s h
    rw [scanLoop]
    have h2 := @scanIter_WF env conc T s h
    rcases hIt : scanIter env conc T s with s1 | s1 | s1 <;> rw [hIt] at h2
    · exact h2
    · exact ih s1 h2
    · exact h2

/-! ## C1: the in-flight set never exceeds the concurrency cap -/

/-- C1: for every scan (any environment, any target sequence, any
`concurrency > 0`, any `timeout > 0`), the size of the in-flight set is
at most `concurrency` at the entry of every loop iteration and in the
final state however the run ends, and the admission loop never admits a
new attempt while the in-flight set is at (or beyond) the cap: `refill`
returns the state unchanged. -/
theorem inflight_bounded_by_concurrency (env : Env) (ips : List String)
    (ports : List Nat) (conc : Nat) (T : ℤ) (hconc : 0 < conc) (hT : 0 < T) :
    (∀ k s', stateAt env conc T (initState ips ports) k = some s' →
      s'.in_flight.length ≤ conc) ∧
    (∀ fuel, (scanLoop env conc T fuel
      (initState ips ports)).state.in_flight.length ≤ conc) ∧
    (∀ s' : ScanState, conc ≤ s'.in_flight.length → refill env conc s' = .ok s') := by
  refine ⟨stateAt_len (by simp [initState]), fun fuel => scanLoop_len fuel _
    (by simp [initState]), fun s' h => refill_full h⟩

/-- Witness for C1 at a concrete input: two targets scanned with
concurrency 1. -/
theorem inflight_bounded_witness :
    (scanLoop (envOf (fun _ => some 1) (fun _ => 0) 1) 1 1 5
      (initState ["198.51.100.7"] [2905, 2906])).state.in_flight.length ≤ 1 :=
  (inflight_bounded_by_concurrency (envOf (fun _ => some 1) (fun _ => 0) 1)
    ["198.51.100.7"] [2905, 2906] 1 1 (by decide) (by decide)).2.1 5

/-! ## Inversion of the iteration outcomes -/

theorem scanIter_abort_inv {env : Env} {conc : Nat} {T : ℤ} {s sE : ScanState}
    (h : scanIter env conc T s = .iterAbort sE) :
    refill env conc s = .error sE := by
  rcases hr : refill env conc s with sF | s1
  · rw [scanIter_err hr] at h
    cases h
    rfl
  · by_cases hE : s1.in_flight.isEmpty
    · rw [scanIter_done hr hE] at h
      cases h
    · rw [scanIter_cont hr hE] at h
      cases h

theorem scanIter_done_inv {env : Env} {conc : Nat} {T : ℤ} {s s1 : ScanState}
    (h : scanIter env conc T s = .iterDone s1) :
    refill env conc s = .ok s1 ∧ s1.in_flight.isEmpty = true := by
  rcases hr : refill env conc s with sE | sR
  · rw [scanIter_err hr] at h
    cases h
  · by_cases hE : sR.in_flight.isEmpty
    · rw [scanIter_done hr hE] at h
      cases h
      exact ⟨rfl, hE⟩
    · rw [scanIter_cont hr hE] at h
      cases h

theorem scanIter_cont_inv {env : Env} {conc : Nat} {T : ℤ} {s s2 : ScanState}
    (h : scanIter env conc T s = .iterCont s2) :
    ∃ s1, refill env conc s = .ok s1 ∧ ¬ s1.in_flight.isEmpty = true ∧
      s2 = { sweepLoop (env.nowClock s1) T (resolveReady env (readyEff env s1) s1) with
        selIdx := (sweepLoop (env.nowClock s1) T
          (resolveReady env (readyEff env s1) s1)).selIdx + 1 } := by
  rcases hr : refill env conc s with sE | sR
  · rw [scanIter_err hr] at h
    cases h
  · by_cases hE : sR.in_flight.isEmpty
    · rw [scanIter_done hr hE] at h
      cases h
    · rw [scanIter_cont hr hE] at h
      cases h
      exact ⟨sR, rfl, hE, rfl⟩

/-- A normal return only happens with an empty in-flight set. -/
theorem scanLoop_done_empty {env : Env} {conc : Nat} {T : ℤ} :
    ∀ {fuel : Nat} {s sf : ScanState},
      scanLoop env conc T fuel s = .runDone sf → sf.in_flight.isEmpty = true := by
  intro fuel
  induction fuel with
  | zero =>
    intro s sf h
    cases h
  | succ fuel ih =>
    intro s sf h
    rw [scanLoop] at h
    rcases hIt : scanIter env conc T s with s1 | s1 | s1 <;> rw [hIt] at h
    · cases h
      exact (scanIter_done_inv hIt).2
    · exact ih h
    · cases h

/-! ## C2 (corrected): resolution and close accounting -/

/-- Counterexample to C2 as stated: when `socket.socket` raises while an
attempt is already in flight (two targets, concurrency 2, the second
creation fails), `scan_sctp` raises — and the already-admitted attempt is
left in flight, unresolved, with its handle never closed.  The claim's
"when scan_sctp returns or raises" clause is therefore false on the
code. -/
theorem open_handle_leak_on_raise :
    (scan_sctp (withFailAt (envOf (fun _ => none) (fun _ => 0) 1) 1)
      ["198.51.100.7"] [2905, 2906] 2 1 5).isAborted = true ∧
    (scan_sctp (withFailAt (envOf (fun _ => none) (fun _ => 0) 1) 1)
      ["198.51.100.7"] [2905, 2906] 2 1 5).state.in_flight.length = 1 ∧
    (scan_sctp (withFailAt (envOf (fun _ => none) (fun _ => 0) 1) 1)
      ["198.51.100.7"] [2905, 2906] 2 1 5).state.closed = [] ∧
    (scan_sctp (withFailAt (envOf (fun _ => none) (fun _ => 0) 1) 1)
      ["198.51.100.7"] [2905, 2906] 2 1 5).state.resolved = [] ∧
    (scan_sctp (withFailAt (envOf (fun _ => none) (fun _ => 0) 1) 1)
      ["198.51.100.7"] [2905, 2906] 2 1 5).state.opened ≠ [] := by
  decide

/-- C2 as amended: when `scan_sctp` RETURNS NORMALLY, every admitted
Connection Attempt has been resolved exactly once — as a success, a
failure, or a timeout — and its handle has been closed exactly once: the
resolution log covers the opened sockets exactly (a permutation, with no
socket resolved twice), the close log is exactly the resolution log's
sockets, and no handle is left open.  (When `scan_sctp` raises instead,
in-flight handles leak, see the counterexample.) -/
theorem admitted_resolved_once_on_return (env : Env) (conc : Nat) (T : ℤ)
    (fuel : Nat) (ips : List String) (ports : List Nat) (sf : ScanState)
    (hdone : scanLoop env conc T fuel (initState ips ports) = .runDone sf) :
    sf.in_flight = [] ∧
    (sf.resolved.map (fun r => (r.sock, r.target))).Perm sf.opened ∧
    (sf.resolved.map ResEntry.sock).Nodup ∧
    sf.closed = sf.resolved.map ResEntry.sock ∧
    sf.closed.Nodup := by
  have hWF : WF sf := by
    have h1 := @scanLoop_WF env conc T fuel (initState ips ports)
      (WF.initState ips ports)
    rw [hdone] at h1
    exact h1
  have hEmp : sf.in_flight = [] :=
    List.isEmpty_iff.mp (scanLoop_done_empty hdone)
  refine ⟨hEmp, ?_, ?_, hWF.resClosed.symm, hWF.closed_nodup⟩
  · have h2 := hWF.acct
    rw [hEmp] at h2
    simpa using h2.symm
  · have h3 := hWF.socks_nodup
    rw [hEmp] at h3
    simpa using h3

/-- Witness for the amended C2 at a concrete input. -/
theorem admitted_resolved_once_witness :
    (scanLoop (envOf (fun _ => some 1) (fun t => t.2) 1) 1 1 4
        (initState ["198.51.100.7"] [0, 2905])).state.in_flight = [] ∧
    ((scanLoop (envOf (fun _ => some 1) (fun t => t.2) 1) 1 1 4
        (initState ["198.51.100.7"] [0, 2905])).state.resolved.map
      (fun r => (r.sock, r.target))).Perm
      (scanLoop (envOf (fun _ => some 1) (fun t => t.2) 1) 1 1 4
        (initState ["198.51.100.7"] [0, 2905])).state.opened ∧
    ((scanLoop (envOf (fun _ => some 1) (fun t => t.2) 1) 1 1 4
        (initState ["198.51.100.7"] [0, 2905])).state.resolved.map
      ResEntry.sock).Nodup ∧
    (scanLoop (envOf (fun _ => some 1) (fun t => t.2) 1) 1 1 4
        (initState ["198.51.100.7"] [0, 2905])).state.closed =
      (scanLoop (envOf (fun _ => some 1) (fun t => t.2) 1) 1 1 4
        (initState ["198.51.100.7"] [0, 2905])).state.resolved.map ResEntry.sock ∧
    (scanLoop (envOf (fun _ => some 1) (fun t => t.2) 1) 1 1 4
        (initState ["198.51.100.7"] [0, 2905])).state.closed.Nodup :=
  admitted_resolved_once_on_return (envOf (fun _ => some 1) (fun t => t.2) 1)
    1 1 4 ["198.51.100.7"] [0, 2905] _ (by decide)

/-! ## C3 (corrected): admission failure aborts the scan -/

/-- Counterexample to C3 as stated: with two targets and a first socket
creation that raises `OSError`, the scan does NOT continue — the
exception propagates (`runAborted`), the second target is never
attempted, and nothing is recorded about the failed target. -/
theorem admission_failure_not_local :
    (scan_sctp (withFailAt (envOf (fun _ => some 1) (fun _ => 0) 1) 0)
      ["198.51.100.7"] [2905, 2906] 2 1 5).isAborted = true ∧
    (scan_sctp (withFailAt (envOf (fun _ => some 1) (fun _ => 0) 1) 0)
      ["198.51.100.7"] [2905, 2906] 2 1 5).state.tasks = [("198.51.100.7", 2906)] ∧
    (scan_sctp (withFailAt (envOf (fun _ => some 1) (fun _ => 0) 1) 0)
      ["198.51.100.7"] [2905, 2906] 2 1 5).state.resolved = [] ∧
    (scan_sctp (withFailAt (envOf (fun _ => some 1) (fun _ => 0) 1) 0)
      ["198.51.100.7"] [2905, 2906] 2 1 5).state.results = [] := by
  decide

/-- C3 as amended: if handle creation fails during admission, the
exception propagates out of `scan_sctp` (only `StopIteration` is caught),
aborting the whole scan: the failing Target has been consumed by the
producer (dropped, not requeued) and no further Target is processed.  The
claim's statement that the scan continues for the other targets does not
hold on the code. -/
theorem admission_failure_aborts (env : Env) (conc : Nat) (T : ℤ) (fuel : Nat)
    (s : ScanState) (t : Target) (rest : List Target)
    (hT : s.tasks = t :: rest) (hlt : s.in_flight.length < conc)
    (hfail : env.sockFail s = true) :
    scanLoop env conc T (fuel + 1) s = .runAborted { s with tasks := rest } := by
  have h1 : refill env conc s = .error { s with tasks := rest } := by
    rw [refill, hT, refillGo, if_pos hlt, if_pos hfail]
  rw [scanLoop, scanIter_err h1]

/-! ## C4 (corrected): expiry decisions and the wall clock -/

/-- An attempt whose socket is not reported ready survives the
readiness-processing loop. -/
theorem resolveReady_mem_of_not_ready {env : Env} :
    ∀ (ready : List Nat) (s : ScanState) (a : Attempt),
      (s.in_flight.map Attempt.sock).Nodup →
      a ∈ s.in_flight → a.sock ∉ ready →
      a ∈ (resolveReady env ready s).in_flight := by
  intro ready
  induction ready with
  | nil => exact fun s a _ ha _ => ha
  | cons id rest ih =>
    intro s a hnd ha hnr
    have hne : a.sock ≠ id := fun h => hnr (by simp [h])
    have hnr2 : a.sock ∉ rest := fun h => hnr (by simp [h])
    rcases hf : s.in_flight.find? (fun b => b.sock == id) with - | b
    · rw [resolveReady, hf]
      exact ih s a hnd ha hnr2
    · obtain ⟨l₁, l₂, hl, hl₁, hax, he⟩ := find?_sock_split hf
      rw [resolveReady, hf]
      refine ih _ a ?_ ?_ hnr2
      · show ((s.in_flight.eraseP _).map Attempt.sock).Nodup
        refine List.Nodup.sublist (List.Sublist.map _ ?_) hnd
        rw [he, hl]
        exact (List.sublist_cons_self b l₂).append_left l₁
      · show a ∈ s.in_flight.eraseP _
        exact (List.mem_eraseP_of_neg (by simpa using hne)).mpr ha

/-- C4 as amended: the expiry test compares exactly the `time.time()`
samples the environment supplies — the attempt admitted with stamp
`started_at` is swept out in an iteration if and only if
`now - started_at >= timeout` for that iteration's `now` sample.  Since
`time.time()` is the WALL clock, not a monotonic clock, expiry decisions
change under wall-clock adjustments (see the counterexample, where a
backward jump keeps an attempt alive past its deadline). -/
theorem expiry_uses_wall_clock_samples (env : Env) (conc : Nat) (T : ℤ)
    (s s1 : ScanState) (a : Attempt) (hWF : WF s)
    (hr : refill env conc s = .ok s1) (hne : ¬ s1.in_flight.isEmpty = true)
    (ha : a ∈ s1.in_flight) (hnr : a.sock ∉ readyEff env s1) :
    (a ∈ (scanIter env conc T s).state.in_flight ↔
      env.nowClock s1 - a.start < T) := by
  have hWF1 : WF s1 := refill_WF_ok hWF hr
  rw [scanIter_cont hr hne]
  show a ∈ (sweepLoop _ _ _).in_flight ↔ _
  constructor
  · intro h2
    have h3 : ¬ T ≤ env.nowClock s1 - a.start :=
      of_decide_eq_true (List.mem_filter.mp h2).2
    exact not_le.mp h3
  · intro h2
    refine List.mem_filter.mpr ⟨?_, decide_eq_true (not_le.mpr h2)⟩
    exact resolveReady_mem_of_not_ready _ _ _ hWF1.in_flight_nodup ha hnr

/-- Witness for the amended C4 at a concrete input: under the
backward-jumped wall clock, the attempt is not expired (`now - start =
-99 < 1`) and indeed stays in flight. -/
theorem expiry_uses_wall_clock_witness :
    ((⟨0, ("198.51.100.7", 2905), 0, 0⟩ : Attempt) ∈
      (scanIter envWallB 1 1 (initState ["198.51.100.7"] [2905])).state.in_flight ↔
      envWallB.nowClock { initState ["198.51.100.7"] [2905] with
          tasks := [],
          in_flight := [⟨0, ("198.51.100.7", 2905), 0, 0⟩],
          registered := [0],
          opened := [(0, ("198.51.100.7", 2905))],
          nextSock := 1 } - 0 < 1) :=
  expiry_uses_wall_clock_samples envWallB 1 1 (initState ["198.51.100.7"] [2905])
    { initState ["198.51.100.7"] [2905] with
      tasks := [],
      in_flight := [⟨0, ("198.51.100.7", 2905), 0, 0⟩],
      registered := [0],
      opened := [(0, ("198.51.100.7", 2905))],
      nextSock := 1 }
    ⟨0, ("198.51.100.7", 2905), 0, 0⟩
    (WF.initState _ _) (by rfl) (by decide) (by decide) (by decide)

/-- Counterexample to C4 as stated: `envWallA` and `envWallB` describe
the same physical execution (same admission instant, same select results,
same real elapsed time per poll — `envWallB` is `envWallA` with only the
`nowClock` samples shifted by a backward wall-clock adjustment of 100
seconds happening after the `started_at` stamp).  With the unadjusted
clock the sole attempt is expired at the first poll (`timeout = 1` tick);
with the adjusted clock it is still in flight: the expiry decision IS
affected by a wall-clock adjustment, because scan.py line 111 and line
119 read `time.time()` (wall clock), not a monotonic clock. -/
theorem wall_clock_dependence :
    ((stateAt envWallA 1 1 (initState ["198.51.100.7"] [2905]) 1).map
      (fun s => s.in_flight.length)) = some 0 ∧
    ((stateAt envWallB 1 1 (initState ["198.51.100.7"] [2905]) 1).map
      (fun s => s.in_flight.length)) = some 1 := by
  decide

/-! ## Kind consistency of the resolution log -/

theorem KindsOk_resolveReady {env : Env} {E : Nat → Nat}
    (hE : ∀ st id, env.soErr st id = E id) :
    ∀ (ready : List Nat) (s : ScanState), KindsOk E s →
      KindsOk E (resolveReady env ready s) := by
  intro ready
  induction ready with
  | nil => exact fun s h => h
  | cons id rest ih =>
    intro s hK
    rcases hf : s.in_flight.find? (fun b => b.sock == id) with - | a
    · rw [resolveReady, hf]
      exact ih s hK
    · obtain ⟨l₁, l₂, hl, hl₁, hax, he⟩ := find?_sock_split hf
      rw [resolveReady, hf]
      refine ih _ ?_
      intro r hr
      rcases List.mem_append.mp hr with hr | hr
      · exact hK r hr
      · have hr2 : r = entryFor (env.soErr s id) a := by simpa using hr
        subst hr2
        have herr : env.soErr s id = E id := hE s id
        by_cases h0 : env.soErr s id = 0
        · refine ⟨fun _ => ?_, fun hc => ?_⟩
          · show E a.sock = 0
            rw [hax, ← herr]
            exact h0
          · exact absurd hc (by simp [entryFor, h0])
        · refine ⟨fun hc => ?_, fun _ => ?_⟩
          · exact absurd hc (by simp [entryFor, h0])
          · show E a.sock ≠ 0
            rw [hax, ← herr]
            exact h0

theorem KindsOk_sweepLoop {E : Nat → Nat} (now T : ℤ) {s : ScanState}
    (hK : KindsOk E s) : KindsOk E (sweepLoop now T s) := by
  intro r hr
  rcases List.mem_append.mp hr with hr | hr
  · exact hK r hr
  · obtain ⟨a, -, rfl⟩ := List.mem_map.mp hr
    refine ⟨fun hc => ?_, fun hc => ?_⟩ <;> exact absurd hc (by simp)

theorem KindsOk_scanLoop {env : Env} {E : Nat → Nat}
    (hE : ∀ st id, env.soErr st id = E id) {conc : Nat} {T : ℤ} :
    ∀ {fuel : Nat} {s sf : ScanState},
      scanLoop env conc T fuel s = .runDone sf → KindsOk E s → KindsOk E sf := by
  intro fuel
  induction fuel with
  | zero =>
    intro s sf h
    cases h
  | succ fuel ih =>
    intro s sf h hK
    rw [scanLoop] at h
    rcases hIt : scanIter env conc T s with s1 | s1 | s1 <;> rw [hIt] at h
    · cases h
      obtain ⟨hr, -⟩ := scanIter_done_inv hIt
      have h2 := (refill_ok_spec hr).2.1
      intro r hrr
      rw [h2] at hrr
      exact hK r hrr
    · refine ih h ?_
      obtain ⟨sR, hr, hne, h2⟩ := scanIter_cont_inv hIt
      subst h2
      have h3 := (refill_ok_spec hr).2.1
      have h4 : KindsOk E sR := by
        intro r hrr
        rw [h3] at hrr
        exact hK r hrr
      intro r hrr
      exact KindsOk_sweepLoop _ _ (KindsOk_resolveReady hE _ _ h4) r hrr
    · cases h

/-! ## C5: writable handling and the final result set -/

/-- C5: (per-iteration mechanics) in every loop iteration, each handle
reported writable is removed from the in-flight set and deregistered
(`registered` stays the key set of the remaining in-flight dict), its
pending connection error is read, the attempt's target is appended to
`results` if and only if that error is zero, and its handle is closed;
(whole-scan consequence) on normal return the Result Set is exactly the
targets of the resolutions recorded as successes, and a resolution is a
success exactly when the pending error read was zero (failures read a
non-zero error; timeouts are neither). -/
theorem ready_resolution_and_results (env : Env) (E : Nat → Nat)
    (hE : ∀ st id, env.soErr st id = E id) (conc : Nat) (T : ℤ) :
    (∀ s s1 : ScanState, WF s → refill env conc s = .ok s1 →
      (resolveReady env (readyEff env s1) s1).in_flight =
        s1.in_flight.filter (fun a => decide (a.sock ∉ readyEff env s1)) ∧
      (resolveReady env (readyEff env s1) s1).registered =
        (resolveReady env (readyEff env s1) s1).in_flight.map Attempt.sock ∧
      (resolveReady env (readyEff env s1) s1).results = s1.results ++
        ((popAttempts s1.in_flight (readyEff env s1)).filter
          (fun a => decide (E a.sock = 0))).map Attempt.target ∧
      (resolveReady env (readyEff env s1) s1).closed = s1.closed ++
        (popAttempts s1.in_flight (readyEff env s1)).map Attempt.sock ∧
      (popAttempts s1.in_flight (readyEff env s1)).map Attempt.sock =
        readyEff env s1) ∧
    (∀ (fuel : Nat) (ips : List String) (ports : List Nat) (sf : ScanState),
      scanLoop env conc T fuel (initState ips ports) = .runDone sf →
      sf.results = (sf.resolved.filter
        (fun r => decide (r.kind = ResKind.success))).map ResEntry.target ∧
      KindsOk E sf) := by
  constructor
  · intro s s1 hWF hr
    have hWF1 : WF s1 := refill_WF_ok hWF hr
    have hsub : ∀ id ∈ readyEff env s1, id ∈ s1.in_flight.map Attempt.sock := by
      intro id hid
      rw [← hWF1.reg]
      exact readyEff_sub env s1 id hid
    obtain ⟨hEq, hSock, hPerm⟩ := resolveReady_spec (fun a => E a.sock)
      (fun st a _ => hE st a.sock) (readyEff env s1) s1 hsub
      (readyEff_nodup env s1) hWF1.in_flight_nodup hWF1.reg
    rw [hEq]
    exact ⟨rfl, rfl, rfl, rfl, hSock⟩
  · intro fuel ips ports sf hdone
    have hWF : WF sf := by
      have h1 := @scanLoop_WF env conc T fuel (initState ips ports)
        (WF.initState ips ports)
      rw [hdone] at h1
      exact h1
    exact ⟨hWF.res, KindsOk_scanLoop hE hdone (fun r hr => by simp [initState] at hr)⟩

/-- Witness for C5 at a concrete input: two targets, one refused
(`SO_ERROR = 111`), one accepted (`SO_ERROR = 0`); only the accepted one
reaches the result set. -/
theorem ready_resolution_witness :
    (scanLoop (envOfE (fun _ => some 1) (fun id => id * 111) 1) 2 1 4
        (initState ["198.51.100.7"] [2905, 2906])).state.results =
      ((scanLoop (envOfE (fun _ => some 1) (fun id => id * 111) 1) 2 1 4
        (initState ["198.51.100.7"] [2905, 2906])).state.resolved.filter
          (fun r => decide (r.kind = ResKind.success))).map ResEntry.target :=
  (ready_resolution_and_results (envOfE (fun _ => some 1) (fun id => id * 111) 1)
    (fun id => id * 111) (fun _ _ => rfl) 2 1 |>.2 4 ["198.51.100.7"] [2905, 2906]
    _ (by decide)).1

/-! ## C9: a writable and simultaneously expired attempt -/

/-- With unique keys, `find?` on the socket of a member returns exactly
that member. -/
theorem find?_sock_of_mem {l : List Attempt} {a : Attempt}
    (hnd : (l.map Attempt.sock).Nodup) (ha : a ∈ l) :
    l.find? (fun b => b.sock == a.sock) = some a := by
  rcases hf : l.find? (fun b => b.sock == a.sock) with - | b
  · rw [List.find?_eq_none] at hf
    exact absurd (by simp : (a.sock == a.sock) = true) (hf a ha)
  · have hb := List.mem_of_find?_eq_some hf
    have hbs : b.sock = a.sock := by simpa using List.find?_some hf
    have hba : b = a := List.inj_on_of_nodup_map hnd hb ha hbs
    rw [hba] at hf
    exact hf

/-- With an injective key, the member with a given key is unique: the
filter collapses to a singleton. -/
theorem filter_eq_singleton_of_nodup_map {l : List Attempt} {a : Attempt}
    (hnd : (l.map Attempt.sock).Nodup) (ha : a ∈ l) :
    l.filter (fun b => decide (b.sock = a.sock)) = [a] := by
  induction l with
  | nil => cases ha
  | cons c l ih =>
    rw [List.map_cons, List.nodup_cons] at hnd
    rcases List.mem_cons.mp ha with rfl | ha2
    · rw [List.filter_cons, if_pos (by simp)]
      have h2 : l.filter (fun b => decide (b.sock = a.sock)) = [] := by
        refine List.filter_eq_nil_iff.mpr ?_
        intro b hb hbc
        exact hnd.1 (of_decide_eq_true hbc ▸ List.mem_map_of_mem Attempt.sock hb)
      rw [h2]
    · have hca : c.sock ≠ a.sock := by
        intro hc
        exact hnd.1 (hc ▸ List.mem_map_of_mem Attempt.sock ha2)
      rw [List.filter_cons, if_neg (by simpa using hca)]
      exact ih hnd.2 ha2

/-- C9: within one iteration, writable resolutions run before the expiry
sweep and each resolved socket is removed from the in-flight set before
the sweep.  An attempt that is both reported writable and past its
deadline in the same iteration is resolved exactly once, by the
`SO_ERROR` check (success or failure) — never as a timeout. -/
theorem writable_beats_timeout (env : Env) (E : Nat → Nat)
    (hE : ∀ st id, env.soErr st id = E id) (conc : Nat) (T : ℤ)
    (s s1 : ScanState) (a : Attempt) (hWF : WF s)
    (hr : refill env conc s = .ok s1) (hne : ¬ s1.in_flight.isEmpty = true)
    (ha : a ∈ s1.in_flight) (hready : a.sock ∈ readyEff env s1)
    (hexp : T ≤ env.nowClock s1 - a.start) :
    ((scanIter env conc T s).state.resolved.drop s1.resolved.length).filter
        (fun r => decide (r.sock = a.sock)) = [entryFor (E a.sock) a] ∧
    (entryFor (E a.sock) a).kind ≠ ResKind.timeout ∧
    a.sock ∉ (scanIter env conc T s).state.in_flight.map Attempt.sock ∧
    a.sock ∈ (scanIter env conc T s).state.closed := by
  have hWF1 : WF s1 := refill_WF_ok hWF hr
  have hsub : ∀ id ∈ readyEff env s1, id ∈ s1.in_flight.map Attempt.sock := by
    intro id hid
    rw [← hWF1.reg]
    exact readyEff_sub env s1 id hid
  obtain ⟨hEq, hSock, hPerm⟩ := resolveReady_spec (fun a => E a.sock)
    (fun st a _ => hE st a.sock) (readyEff env s1) s1 hsub
    (readyEff_nodup env s1) hWF1.in_flight_nodup hWF1.reg
  have hfind : s1.in_flight.find? (fun b => b.sock == a.sock) = some a :=
    find?_sock_of_mem hWF1.in_flight_nodup ha
  have haPop : a ∈ popAttempts s1.in_flight (readyEff env s1) :=
    List.mem_filterMap.mpr ⟨a.sock, hready, hfind⟩
  have hPopNd : ((popAttempts s1.in_flight (readyEff env s1)).map
      Attempt.sock).Nodup := by
    rw [hSock]
    exact readyEff_nodup env s1
  rw [scanIter_cont hr hne]
  have hKeptNo : ∀ b ∈ (resolveReady env (readyEff env s1) s1).in_flight,
      b.sock ≠ a.sock := by
    rw [hEq]
    intro b hb hba
    have h2 := of_decide_eq_true (List.mem_filter.mp hb).2
    exact h2 (hba ▸ hready)
  refine ⟨?_, ?_, ?_, ?_⟩
  · have hresR : (resolveReady env (readyEff env s1) s1).resolved =
        s1.resolved ++ (popAttempts s1.in_flight (readyEff env s1)).map
          (fun b => entryFor (E b.sock) b) := by
      rw [hEq]
    show (((resolveReady env (readyEff env s1) s1).resolved ++
        ((resolveReady env (readyEff env s1) s1).in_flight.filter
          (fun b => decide (T ≤ env.nowClock s1 - b.start))).map
          (fun b => (⟨b.sock, b.target, ResKind.timeout⟩ : ResEntry))).drop
        s1.resolved.length).filter (fun r => decide (r.sock = a.sock)) =
      [entryFor (E a.sock) a]
    have hA : ((popAttempts s1.in_flight (readyEff env s1)).map
        (fun b => entryFor (E b.sock) b)).filter
        (fun r => decide (r.sock = a.sock)) = [entryFor (E a.sock) a] := by
      rw [List.filter_map]
      have h3 : (popAttempts s1.in_flight (readyEff env s1)).filter
          ((fun r => decide (r.sock = a.sock)) ∘ (fun b => entryFor (E b.sock) b)) =
          (popAttempts s1.in_flight (readyEff env s1)).filter
          (fun b => decide (b.sock = a.sock)) := rfl
      rw [h3, filter_eq_singleton_of_nodup_map hPopNd haPop]
      rfl
    have hB : (((resolveReady env (readyEff env s1) s1).in_flight.filter
        (fun b => decide (T ≤ env.nowClock s1 - b.start))).map
        (fun b => (⟨b.sock, b.target, ResKind.timeout⟩ : ResEntry))).filter
        (fun r => decide (r.sock = a.sock)) = [] := by
      refine List.filter_eq_nil_iff.mpr ?_
      intro r hrr
      obtain ⟨b, hb, rfl⟩ := List.mem_map.mp hrr
      have hb2 := List.mem_filter.mp hb
      intro hc
      exact hKeptNo b hb2.1 (of_decide_eq_true hc)
    rw [hresR, List.append_assoc, List.drop_left, List.filter_append, hA, hB,
      List.append_nil]
  · by_cases h0 : E a.sock = 0 <;> simp [entryFor, h0]
  · show a.sock ∉ ((sweepLoop _ _ _).in_flight.map Attempt.sock)
    intro hmem
    obtain ⟨b, hb, hba⟩ := List.mem_map.mp hmem
    have hb2 : b ∈ (resolveReady env (readyEff env s1) s1).in_flight :=
      List.mem_of_mem_filter hb
    exact hKeptNo b hb2 hba
  · show a.sock ∈ (sweepLoop _ _ _).closed
    have h4 : a.sock ∈ (resolveReady env (readyEff env s1) s1).closed := by
      rw [hEq]
      show a.sock ∈ s1.closed ++ _
      exact List.mem_append_right _ (List.mem_map_of_mem Attempt.sock haPop)
    exact List.mem_append_left _ h4

/-- Witness for C9 at a concrete input: the sole attempt is writable at
the first poll and simultaneously past its deadline (timeout 1 tick, poll
granularity 1 tick); it is resolved by the error check as a failure, not
as a timeout. -/
theorem writable_beats_timeout_witness :
    (((scanIter (envOfE (fun _ => some 1) (fun _ => 111) 1) 1 1
        (initState ["198.51.100.7"] [2905])).state.resolved.drop 0).filter
        (fun r => decide (r.sock = 0)) =
      [entryFor 111 (⟨0, ("198.51.100.7", 2905), 0, 0⟩ : Attempt)]) ∧
    (entryFor 111 (⟨0, ("198.51.100.7", 2905), 0, 0⟩ : Attempt)).kind ≠
      ResKind.timeout ∧
    (0 : Nat) ∉ (scanIter (envOfE (fun _ => some 1) (fun _ => 111) 1) 1 1
        (initState ["198.51.100.7"] [2905])).state.in_flight.map Attempt.sock ∧
    (0 : Nat) ∈ (scanIter (envOfE (fun _ => some 1) (fun _ => 111) 1) 1 1
        (initState ["198.51.100.7"] [2905])).state.closed :=
  writable_beats_timeout (envOfE (fun _ => some 1) (fun _ => 111) 1)
    (fun _ => 111) (fun _ _ => rfl) 1 1 (initState ["198.51.100.7"] [2905])
    { initState ["198.51.100.7"] [2905] with
      tasks := [],
      in_flight := [⟨0, ("198.51.100.7", 2905), 0, 0⟩],
      registered := [0],
      opened := [(0, ("198.51.100.7", 2905))],
      nextSock := 1 }
    ⟨0, ("198.51.100.7", 2905), 0, 0⟩
    (WF.initState _ _) (by rfl) (by decide) (by decide) (by decide) (by decide)

/-! ## C7: termination and the exit condition -/

theorem fold_max_le {l : List Nat} {c : Nat} (h : ∀ x ∈ l, x ≤ c) :
    l.foldr max 0 ≤ c := by
  induction l with
  | nil => exact Nat.zero_le c
  | cons x l ih =>
    exact max_le (h x (by simp)) (ih fun y hy => h y (by simp [hy]))

theorem le_fold_max {l : List Nat} {x : Nat} (h : x ∈ l) :
    x ≤ l.foldr max 0 := by
  induction l with
  | nil => cases h
  | cons y l ih =>
    rcases List.mem_cons.mp h with rfl | h2
    · exact le_max_left _ _
    · exact le_trans (ih h2) (le_max_right _ _)

theorem resolveReady_subset {env : Env} :
    ∀ (ready : List Nat) (s : ScanState),
      (resolveReady env ready s).in_flight ⊆ s.in_flight := by
  intro ready
  induction ready with
  | nil => exact fun s => List.Subset.refl _
  | cons id rest ih =>
    intro s
    rcases hf : s.in_flight.find? (fun b => b.sock == id) with - | a
    · rw [resolveReady, hf]
      exact ih s
    · rw [resolveReady, hf]
      refine (ih _).trans ?_
      show s.in_flight.eraseP _ ⊆ s.in_flight
      exact List.eraseP_subset _

theorem resolveReady_tasks_selIdx {env : Env} :
    ∀ (ready : List Nat) (s : ScanState),
      (resolveReady env ready s).tasks = s.tasks ∧
      (resolveReady env ready s).selIdx = s.selIdx := by
  intro ready
  induction ready with
  | nil => exact fun s => ⟨rfl, rfl⟩
  | cons id rest ih =>
    intro s
    rcases hf : s.in_flight.find? (fun b => b.sock == id) with - | a
    · rw [resolveReady, hf]
      exact ih s
    · rw [resolveReady, hf]
      exact ih _

theorem refillGo_no_error {env : Env} {conc : Nat}
    (hnofail : ∀ st : ScanState, env.sockFail st = false) :
    ∀ (tks : List Target) (s sE : ScanState), refillGo env conc tks s ≠ .error sE := by
  intro tks
  induction tks with
  | nil =>
    intro s sE h
    cases h
  | cons t rest ih =>
    intro s sE h
    rw [refillGo] at h
    by_cases hlt : s.in_flight.length < conc
    · rw [if_pos hlt, hnofail s] at h
      rw [if_neg (by simp)] at h
      exact ih _ sE h
    · rw [if_neg hlt] at h
      cases h

/-- One continuing iteration preserves the timed invariant and strictly
decreases the termination measure. -/
theorem scanIter_timed {env : Env} {conc : Nat} {T : ℤ} {A N : Nat → ℤ} {D : Nat}
    (hA : ∀ st : ScanState, env.startClock st = A st.selIdx)
    (hN : ∀ st : ScanState, env.nowClock st = N st.selIdx)
    (hProg : ∀ j k : Nat, j + D ≤ k → A j + T ≤ N k)
    (hD : 1 ≤ D) {s s' : ScanState} (hInv : TimedInv A D s)
    (hIt : scanIter env conc T s = .iterCont s') :
    TimedInv A D s' ∧ nuOf D s' < nuOf D s := by
  obtain ⟨s1, hr, hne, hs'⟩ := scanIter_cont_inv hIt
  obtain ⟨-, -, -, hsel, new, hIF, -, -, -, hDr, -, -, hAll⟩ := refill_ok_spec hr
  -- the invariant after the admission phase
  have hR : ∀ a ∈ s1.in_flight, a.start = A a.bornAt ∧ a.bornAt ≤ s.selIdx ∧
      s.selIdx ≤ a.bornAt + D := by
    intro a ha
    rw [hIF] at ha
    rcases List.mem_append.mp ha with ha | ha
    · obtain ⟨h1, h2, h3⟩ := hInv a ha
      exact ⟨h1, Nat.le_of_lt h2, h3⟩
    · obtain ⟨hb, sMid, hselM, -, hstart⟩ := hAll a ha
      refine ⟨?_, by omega, by omega⟩
      rw [hstart, hA sMid, hselM, hb]
  -- bookkeeping through resolution and sweep
  have hts := @resolveReady_tasks_selIdx env (readyEff env s1) s1
  have hsel' : s'.selIdx = s.selIdx + 1 := by
    rw [hs']
    show (sweepLoop _ _ _).selIdx + 1 = _
    show (resolveReady env (readyEff env s1) s1).selIdx + 1 = _
    rw [hts.2, hsel]
  have htk' : s'.tasks = s1.tasks := by
    rw [hs']
    show (resolveReady env (readyEff env s1) s1).tasks = s1.tasks
    exact hts.1
  -- survivors: in s1, not expired at this iteration's now sample
  have hSurv : ∀ b ∈ s'.in_flight, b ∈ s1.in_flight ∧
      b.start = A b.bornAt ∧ b.bornAt ≤ s.selIdx ∧ s.selIdx + 1 ≤ b.bornAt + D := by
    intro b hb
    rw [hs'] at hb
    have hb2 : b ∈ (sweepLoop (env.nowClock s1) T
        (resolveReady env (readyEff env s1) s1)).in_flight := hb
    have hb3 := List.mem_filter.mp hb2
    have hb4 : b ∈ s1.in_flight := resolveReady_subset _ _ hb3.1
    obtain ⟨hst, hle, hhor⟩ := hR b hb4
    have hnexp : ¬ T ≤ env.nowClock s1 - b.start := of_decide_eq_true hb3.2
    rw [hN s1, hst] at hnexp
    have hsel1 : s1.selIdx = s.selIdx := hsel
    rw [hsel1] at hnexp
    -- not expired yet, so the horizon has not been reached
    have hhor2 : ¬ (b.bornAt + D ≤ s.selIdx) := by
      intro hc
      exact hnexp (by have := hProg b.bornAt s.selIdx hc; omega)
    exact ⟨hb4, hst, hle, by omega⟩
  refine ⟨?_, ?_⟩
  · intro b hb
    obtain ⟨-, hst, hle, hhor⟩ := hSurv b hb
    rw [hsel']
    exact ⟨hst, by omega, hhor⟩
  · -- the measure decreases
    rcases refill_progress hr with hcase | hcase
    · -- no admission: the slack of the (non-empty) in-flight set drops
      subst hcase
      have hneS : s1.in_flight ≠ [] := by
        intro hc
        rw [hc] at hne
        exact hne rfl
      obtain ⟨a0, ha0⟩ := List.exists_mem_of_ne_nil _ hneS
      have hsl1 : 1 ≤ slackOf D s1 := by
        obtain ⟨-, -, h3⟩ := hInv a0 ha0
        refine le_trans ?_ (le_fold_max (List.mem_map_of_mem _ ha0))
        omega
      have hsl2 : slackOf D s' ≤ slackOf D s1 - 1 := by
        refine fold_max_le ?_
        intro x hx
        obtain ⟨b, hb, rfl⟩ := List.mem_map.mp hx
        obtain ⟨hb1, -, -, hhor⟩ := hSurv b hb
        have hent : b.bornAt + D + 1 - s1.selIdx ≤ slackOf D s1 :=
          le_fold_max (List.mem_map_of_mem _ hb1)
        rw [hsel']
        omega
      have htk2 : s'.tasks.length = s1.tasks.length := by rw [htk']
      show s'.tasks.length * (D + 2) + slackOf D s' <
        s1.tasks.length * (D + 2) + slackOf D s1
      rw [htk2]
      omega
    · -- at least one admission: the tasks term drops by a full weight
      have hsl3 : slackOf D s' ≤ D := by
        refine fold_max_le ?_
        intro x hx
        obtain ⟨b, hb, rfl⟩ := List.mem_map.mp hx
        obtain ⟨-, -, hle, -⟩ := hSurv b hb
        rw [hsel']
        omega
      have h1 : s1.tasks.length + 1 ≤ s.tasks.length := hcase
      have h2 : (s1.tasks.length + 1) * (D + 2) ≤ s.tasks.length * (D + 2) :=
        Nat.mul_le_mul_right _ h1
      have h3 : (s1.tasks.length + 1) * (D + 2) =
          s1.tasks.length * (D + 2) + (D + 2) := Nat.succ_mul _ _
      show s'.tasks.length * (D + 2) + slackOf D s' <
        s.tasks.length * (D + 2) + slackOf D s
      have htk2 : s'.tasks.length = s1.tasks.length := by rw [htk']
      rw [htk2]
      omega

/-- Under a progressing clock, the loop returns normally within the
computed fuel. -/
theorem scanLoop_timed {env : Env} {conc : Nat} {T : ℤ} {A N : Nat → ℤ} {D : Nat}
    (hA : ∀ st : ScanState, env.startClock st = A st.selIdx)
    (hN : ∀ st : ScanState, env.nowClock st = N st.selIdx)
    (hProg : ∀ j k : Nat, j + D ≤ k → A j + T ≤ N k)
    (hD : 1 ≤ D) (hnofail : ∀ st : ScanState, env.sockFail st = false) :
    ∀ (fuel : Nat) (s : ScanState), TimedInv A D s → nuOf D s < fuel →
      (scanLoop env conc T fuel s).isDone = true := by
  intro fuel
  induction fuel with
  | zero =>
    intro s hInv hν
    exact absurd hν (Nat.not_lt_zero _)
  | succ fuel ih =>
    intro s hInv hν
    rw [scanLoop]
    rcases hIt : scanIter env conc T s with s1 | s1 | s1
    · rfl
    · obtain ⟨hInv', hdec⟩ := scanIter_timed hA hN hProg hD hInv hIt
      exact ih s1 hInv' (by omega)
    · exact absurd (scanIter_abort_inv hIt) (refillGo_no_error hnofail _ _ _)

/-- Every normal return was produced by a refill with an empty result. -/
theorem scanLoop_done_refill {env : Env} {conc : Nat} {T : ℤ} :
    ∀ {fuel : Nat} {s sf : ScanState},
      scanLoop env conc T fuel s = .runDone sf →
      ∃ sp, refill env conc sp = .ok sf := by
  intro fuel
  induction fuel with
  | zero =>
    intro s sf h
    cases h
  | succ fuel ih =>
    intro s sf h
    rw [scanLoop] at h
    rcases hIt : scanIter env conc T s with s1 | s1 | s1 <;> rw [hIt] at h
    · cases h
      exact ⟨s, (scanIter_done_inv hIt).1⟩
    · exact ih h
    · cases h

/-- C7: under clock traces that depend only on the iteration counter and
progress enough that any attempt older than `D` iterations has exceeded
the timeout (`A j + T ≤ N k` whenever `j + D ≤ k`), and with admissions
that do not raise, the event loop terminates normally within
`|targets| * (D + 2) + 1` iterations; it exits exactly when the producer
is exhausted and the in-flight set is empty; and for an empty target
sequence `scan_sctp` returns the empty Result Set in the very first
iteration, without ever opening a handle. -/
theorem event_loop_terminates (env : Env) (ips : List String) (ports : List Nat)
    (conc : Nat) (T : ℤ) (A N : Nat → ℤ) (D : Nat)
    (hA : ∀ st : ScanState, env.startClock st = A st.selIdx)
    (hN : ∀ st : ScanState, env.nowClock st = N st.selIdx)
    (hProg : ∀ j k : Nat, j + D ≤ k → A j + T ≤ N k)
    (hD : 1 ≤ D) (hconc : 0 < conc) (hT : 0 < T)
    (hnofail : ∀ st : ScanState, env.sockFail st = false) :
    (scan_sctp env ips ports conc T
      ((tasksOf ips ports).length * (D + 2) + 1)).isDone = true ∧
    (∀ (fuel : Nat) (s sf : ScanState), scanLoop env conc T fuel s = .runDone sf →
      sf.in_flight = [] ∧ sf.tasks = []) ∧
    (∀ s : ScanState, s.tasks = [] → s.in_flight = [] →
      scanIter env conc T s = .iterDone s) ∧
    (tasksOf ips ports = [] →
      scan_sctp env ips ports conc T 1 = .runDone (initState ips ports) ∧
      (initState ips ports).results = [] ∧ (initState ips ports).nextSock = 0) := by
  refine ⟨?_, ?_, ?_, ?_⟩
  · refine scanLoop_timed hA hN hProg hD hnofail _ _ ?_ ?_
    · intro a ha
      simp [initState] at ha
    · show (initState ips ports).tasks.length * (D + 2) + slackOf D _ < _
      have h0 : slackOf D (initState ips ports) = 0 := rfl
      rw [h0]
      show (tasksOf ips ports).length * (D + 2) + 0 < _
      omega
  · intro fuel s sf hdone
    have hEmp : sf.in_flight = [] := List.isEmpty_iff.mp (scanLoop_done_empty hdone)
    obtain ⟨sp, hrf⟩ := scanLoop_done_refill hdone
    rcases refill_stop hrf with h1 | h1
    · exact ⟨hEmp, h1⟩
    · exfalso
      rw [hEmp] at h1
      simp at h1
      omega
  · intro s h1 h2
    exact scanIter_done (refill_of_tasks_nil h1) (by rw [h2]; rfl)
  · intro hnil
    refine ⟨?_, rfl, rfl⟩
    show scanLoop env conc T 1 (initState ips ports) = _
    rw [scanLoop, scanIter_done (refill_of_tasks_nil hnil) (by rw [show (initState ips ports).in_flight = [] from rfl]; rfl)]

/-- Witness for C7 at a concrete input. -/
theorem event_loop_terminates_witness :
    (scan_sctp (envOf (fun _ => none) (fun _ => 0) 1) ["198.51.100.7"] [2905, 2906]
      1 1 ((tasksOf ["198.51.100.7"] [2905, 2906]).length * (1 + 2) + 1)).isDone =
      true :=
  (event_loop_terminates (envOf (fun _ => none) (fun _ => 0) 1)
    ["198.51.100.7"] [2905, 2906] 1 1
    (fun j => (j : ℤ) * 1) (fun k => ((k : ℤ) + 1) * 1) 1
    (fun _ => rfl) (fun _ => rfl)
    (by
      intro j k h
      show (j : ℤ) * 1 + 1 ≤ ((k : ℤ) + 1) * 1
      have h2 : (j : ℤ) + 1 ≤ (k : ℤ) := by exact_mod_cast h
      omega)
    (le_refl 1) (by decide) (by decide) (fun _ => rfl)).1

/-! ## C8: the outcome multiset is independent of the concurrency -/

/-- Cancellation of the poll granularity in the writable test. -/
theorem envOf_ready_iff {δ : ℤ} (hδ : 0 < δ) (j k d : Nat) :
    ((d : ℤ) * δ ≤ ((k : ℤ) + 1) * δ - (j : ℤ) * δ) ↔ d + j ≤ k + 1 := by
  rw [show ((k : ℤ) + 1) * δ - (j : ℤ) * δ = ((k : ℤ) + 1 - (j : ℤ)) * δ by ring,
    mul_le_mul_right hδ]
  omega

/-- Cancellation of the poll granularity in the expiry test. -/
theorem envOf_expire_iff {δ : ℤ} (hδ : 0 < δ) (j k TA : Nat) :
    ((TA : ℤ) * δ ≤ ((k : ℤ) + 1) * δ - (j : ℤ) * δ) ↔ TA + j ≤ k + 1 := by
  rw [show ((k : ℤ) + 1) * δ - (j : ℤ) * δ = ((k : ℤ) + 1 - (j : ℤ)) * δ by ring,
    mul_le_mul_right hδ]
  omega

/-- In the fixed-outcome environment, the effective ready list of a
well-formed state is exactly the filter `envOf` computes: the selector
contract (registered, no duplicates) holds by construction. -/
theorem readyEff_envOf {w : Target → Option Nat} {e : Target → Nat} {δ : ℤ}
    {s1 : ScanState} (hWF1 : WF s1) :
    readyEff (envOf w e δ) s1 = (envOf w e δ).readyAt s1 := by
  have hsub : ∀ id ∈ (envOf w e δ).readyAt s1, id ∈ s1.registered := by
    intro id hid
    obtain ⟨a, ha, rfl⟩ := List.mem_map.mp hid
    rw [hWF1.reg]
    exact List.mem_map_of_mem _ (List.mem_of_mem_filter ha)
  have hnd : ((envOf w e δ).readyAt s1).Nodup := by
    show ((s1.in_flight.filter _).map Attempt.sock).Nodup
    refine List.Nodup.sublist (List.Sublist.map _ (List.filter_sublist _)) ?_
    exact hWF1.in_flight_nodup
  rw [readyEff, List.filter_eq_self.mpr (fun id hid => decide_eq_true (hsub id hid)),
    List.dedup_eq_self.mpr hnd]

/-- The resolution age is always at least one poll. -/
theorem one_le_ageOf {wv : Option Nat} {TA : Nat} (hTA : 1 ≤ TA) :
    1 ≤ ageOf wv TA := by
  cases wv with
  | none => exact hTA
  | some d =>
    exact le_min (le_trans (le_max_right d 1) (le_refl _)) hTA

/-- The admission phase preserves the fixed-environment invariant in the
weak (post-refill) form: new attempts are stamped at the current
iteration. -/
theorem refill_fixedEnv {w : Target → Option Nat} {e : Target → Nat} {TA : Nat}
    {targets : List Target} {δ : ℤ} {conc : Nat} {s s1 : ScanState}
    (hTA : 1 ≤ TA) (hInv : FixedEnvInv w e TA targets δ s)
    (hr : refill (envOf w e δ) conc s = .ok s1) :
    (∃ m, s1.tasks = targets.drop m ∧ s1.opened.map Prod.snd = targets.take m) ∧
    (∀ a ∈ s1.in_flight, a.start = (a.bornAt : ℤ) * δ ∧ a.bornAt ≤ s.selIdx ∧
      s.selIdx - a.bornAt < ageOf (w a.target) TA) ∧
    ((s1.resolved.map (fun r => (r.target, r.kind)) ++
        s1.in_flight.map (fun a => pairF w e TA a.target)).Perm
      ((s1.opened.map Prod.snd).map (pairF w e TA))) ∧
    s1.selIdx = s.selIdx := by
  obtain ⟨-, hRsv, -, hsel, new, hIF, hOp, -, hTk, hDr, -, -, hAll⟩ :=
    refill_ok_spec hr
  obtain ⟨m, hm1, hm2⟩ := hInv.tasks_drop
  have hOpSnd : s1.opened.map Prod.snd =
      s.opened.map Prod.snd ++ new.map Attempt.target := by
    rw [hOp, List.map_append, List.map_map]
    rfl
  refine ⟨⟨m + new.length, ?_, ?_⟩, ?_, ?_, hsel⟩
  · rw [hDr, hm1, List.drop_drop]
  · rw [hOpSnd, hm2, hTk, hm1]
    rw [← List.take_add]
  · intro a ha
    rw [hIF] at ha
    rcases List.mem_append.mp ha with ha | ha
    · obtain ⟨h1, h2, h3⟩ := hInv.flight a ha
      exact ⟨h1, Nat.le_of_lt h2, h3⟩
    · obtain ⟨hb, sMid, hselM, -, hstart⟩ := hAll a ha
      have hst : a.start = (a.bornAt : ℤ) * δ := by
        rw [hstart, hb]
        show (envOf w e δ).startClock sMid = _
        show ((sMid.selIdx : ℤ)) * δ = _
        rw [hselM]
      refine ⟨hst, by omega, ?_⟩
      rw [hb, Nat.sub_self]
      exact one_le_ageOf hTA
  · have h9 : (new.map Attempt.target).map (pairF w e TA) =
        new.map (fun a => pairF w e TA a.target) := by
      rw [List.map_map]
      rfl
    rw [hRsv, hIF, hOpSnd, List.map_append, List.map_append, h9,
      ← List.append_assoc]
    exact (hInv.acct.append_right _)

/-- One continuing iteration of the event loop preserves the
fixed-environment invariant. -/
theorem scanIter_fixedEnv {w : Target → Option Nat} {e : Target → Nat} {TA : Nat}
    {targets : List Target} {δ : ℤ} {conc : Nat} {s s' : ScanState}
    (hδ : 0 < δ) (hTA : 1 ≤ TA) (hWF : WF s)
    (hInv : FixedEnvInv w e TA targets δ s)
    (hIt : scanIter (envOf w e δ) conc ((TA : ℤ) * δ) s = .iterCont s') :
    FixedEnvInv w e TA targets δ s' := by
  obtain ⟨s1, hr, hne, hs'⟩ := scanIter_cont_inv hIt
  have hWF1 : WF s1 := refill_WF_ok hWF hr
  obtain ⟨⟨m, hm1, hm2⟩, hFl1, hAcct1, hsel1⟩ := refill_fixedEnv hTA hInv hr
  -- the master description of the readiness-processing phase
  have hsub : ∀ id ∈ readyEff (envOf w e δ) s1, id ∈ s1.in_flight.map Attempt.sock := by
    intro id hid
    rw [← hWF1.reg]
    exact readyEff_sub _ s1 id hid
  have hE : ∀ (st : ScanState) (a : Attempt),
      st.in_flight.find? (fun b => b.sock == a.sock) = some a →
      (envOf w e δ).soErr st a.sock = e a.target := by
    intro st a hfa
    show (match st.in_flight.find? (fun b => b.sock == a.sock) with
      | some b => e b.target
      | none => 0) = e a.target
    rw [hfa]
  obtain ⟨hEq, hSock, hPerm⟩ := resolveReady_spec (fun a => e a.target) hE
    (readyEff (envOf w e δ) s1) s1 hsub (readyEff_nodup _ s1)
    hWF1.in_flight_nodup hWF1.reg
  have hinj := List.inj_on_of_nodup_map hWF1.in_flight_nodup
  -- members of the effective ready list, semantically
  have hReadyMem : ∀ a ∈ s1.in_flight,
      (a.sock ∈ readyEff (envOf w e δ) s1 ↔
        ∃ d, w a.target = some d ∧ d + a.bornAt ≤ s1.selIdx + 1) := by
    intro a ha
    rw [readyEff_envOf hWF1]
    constructor
    · intro hmem
      obtain ⟨b, hb, hbs⟩ := List.mem_map.mp hmem
      have hb1 := List.mem_of_mem_filter hb
      have hba : b = a := hinj hb1 ha hbs
      subst hba
      have hP := (List.mem_filter.mp hb).2
      cases hw : w b.target with
      | none =>
        rw [hw] at hP
        exact absurd hP (by simp)
      | some d =>
        have hP2 : decide ((((s1.selIdx : ℤ)) + 1) * δ - b.start ≥ (d : ℤ) * δ) =
            true := by
          rw [hw] at hP
          exact hP
        obtain ⟨hst, -, -⟩ := hFl1 b hb1
        have hP3 := of_decide_eq_true hP2
        rw [ge_iff_le, hst, envOf_ready_iff hδ] at hP3
        exact ⟨d, rfl, hP3⟩
    · rintro ⟨d, hw, hd⟩
      refine List.mem_map_of_mem _ (List.mem_filter.mpr ⟨ha, ?_⟩)
      obtain ⟨hst, -, -⟩ := hFl1 a ha
      show (match w a.target with
        | some d => decide ((((s1.selIdx : ℤ)) + 1) * δ - a.start ≥ (d : ℤ) * δ)
        | none => false) = true
      rw [hw]
      show decide _ = true
      refine decide_eq_true ?_
      rw [ge_iff_le, hst, envOf_ready_iff hδ]
      exact hd
  -- abbreviations for the three groups of attempts
  have hPerm2 := hPerm
  -- fields of the post-resolution state
  have hifR : (resolveReady (envOf w e δ) (readyEff (envOf w e δ) s1) s1).in_flight =
      s1.in_flight.filter
        (fun a => decide (a.sock ∉ readyEff (envOf w e δ) s1)) := by
    rw [hEq]
  have hresR : (resolveReady (envOf w e δ) (readyEff (envOf w e δ) s1) s1).resolved =
      s1.resolved ++ (popAttempts s1.in_flight (readyEff (envOf w e δ) s1)).map
        (fun b => entryFor (e b.target) b) := by
    rw [hEq]
  have hopR : (resolveReady (envOf w e δ) (readyEff (envOf w e δ) s1) s1).opened =
      s1.opened := by
    rw [hEq]
  have htkR : (resolveReady (envOf w e δ) (readyEff (envOf w e δ) s1) s1).tasks =
      s1.tasks := by
    rw [hEq]
  have hselR : (resolveReady (envOf w e δ) (readyEff (envOf w e δ) s1) s1).selIdx =
      s1.selIdx := by
    rw [hEq]
  -- the now sample of this iteration
  have hnowR : (envOf w e δ).nowClock s1 = ((s1.selIdx : ℤ) + 1) * δ := rfl
  -- fields of the final state of the iteration
  have hIF' : s'.in_flight =
      (s1.in_flight.filter (fun a => decide (a.sock ∉ readyEff (envOf w e δ) s1))).filter
        (fun b => decide (¬ (TA : ℤ) * δ ≤ ((s1.selIdx : ℤ) + 1) * δ - b.start)) := by
    rw [hs']
    show (resolveReady (envOf w e δ) (readyEff (envOf w e δ) s1) s1).in_flight.filter _ = _
    rw [hifR, hnowR]
  have hRSV' : s'.resolved =
      (s1.resolved ++ (popAttempts s1.in_flight (readyEff (envOf w e δ) s1)).map
        (fun b => entryFor (e b.target) b)) ++
      ((s1.in_flight.filter
          (fun a => decide (a.sock ∉ readyEff (envOf w e δ) s1))).filter
        (fun b => decide ((TA : ℤ) * δ ≤ ((s1.selIdx : ℤ) + 1) * δ - b.start))).map
        (fun b => (⟨b.sock, b.target, ResKind.timeout⟩ : ResEntry)) := by
    rw [hs']
    show (resolveReady (envOf w e δ) (readyEff (envOf w e δ) s1) s1).resolved ++
      ((resolveReady (envOf w e δ) (readyEff (envOf w e δ) s1) s1).in_flight.filter _).map _ = _
    rw [hresR, hifR, hnowR]
  have hOP' : s'.opened = s1.opened := by
    rw [hs']
    show (resolveReady (envOf w e δ) (readyEff (envOf w e δ) s1) s1).opened = _
    rw [hopR]
  have hTK' : s'.tasks = s1.tasks := by
    rw [hs']
    show (resolveReady (envOf w e δ) (readyEff (envOf w e δ) s1) s1).tasks = _
    rw [htkR]
  have hSEL' : s'.selIdx = s1.selIdx + 1 := by
    rw [hs']
    show (resolveReady (envOf w e δ) (readyEff (envOf w e δ) s1) s1).selIdx + 1 = _
    rw [hselR]
  refine ⟨⟨m, by rw [hTK', hm1], by rw [hOP', hm2]⟩, ?_, ?_⟩
  · -- the survivors have not reached their resolution age
    intro b hb
    rw [hIF'] at hb
    have hb1 := List.mem_filter.mp hb
    have hb2 := List.mem_filter.mp hb1.1
    obtain ⟨hst, hle, -⟩ := hFl1 b hb2.1
    have hnr : b.sock ∉ readyEff (envOf w e δ) s1 := of_decide_eq_true hb2.2
    have hnx : ¬ (TA : ℤ) * δ ≤ ((s1.selIdx : ℤ) + 1) * δ - b.start :=
      of_decide_eq_true hb1.2
    rw [hst, envOf_expire_iff hδ] at hnx
    rw [← hsel1] at hle
    refine ⟨hst, ?_, ?_⟩
    · rw [hSEL']
      omega
    · rw [hSEL']
      cases hw : w b.target with
      | none =>
        rw [show ageOf none TA = TA from rfl]
        omega
      | some d =>
        have hnd : ¬ (d + b.bornAt ≤ s1.selIdx + 1) := fun hc =>
          hnr ((hReadyMem b hb2.1).mpr ⟨d, hw, hc⟩)
        rw [show ageOf (some d) TA = min (max d 1) TA from rfl]
        omega
  · -- accounting: the three groups partition the in-flight set
    have hPopsPerm : (popAttempts s1.in_flight (readyEff (envOf w e δ) s1)).Perm
        (s1.in_flight.filter
          (fun a => decide (a.sock ∈ readyEff (envOf w e δ) s1))) := hPerm2
    -- kinds of popped attempts match the prediction
    have hPopKind : ∀ b ∈ popAttempts s1.in_flight (readyEff (envOf w e δ) s1),
        ((fun r : ResEntry => (r.target, r.kind)) ∘
          (fun c => entryFor (e c.target) c)) b = pairF w e TA b.target := by
      intro b hbp
      have hbf := hPopsPerm.mem_iff.mp hbp
      have hb1 := List.mem_of_mem_filter hbf
      have hbr : b.sock ∈ readyEff (envOf w e δ) s1 :=
        of_decide_eq_true (List.mem_filter.mp hbf).2
      obtain ⟨d, hw, hd⟩ := (hReadyMem b hb1).mp hbr
      obtain ⟨-, hle, hage⟩ := hFl1 b hb1
      rw [hsel1] at hd
      rw [hw] at hage
      rw [show ageOf (some d) TA = min (max d 1) TA from rfl] at hage
      have hmax : max d 1 ≤ TA := by omega
      show ((entryFor (e b.target) b).target, (entryFor (e b.target) b).kind) =
        pairF w e TA b.target
      simp only [entryFor, pairF, hw, resolveKind, if_pos hmax]
    -- kinds of expired attempts match the prediction
    have hExpKind : ∀ b ∈ (s1.in_flight.filter
        (fun a => decide (a.sock ∉ readyEff (envOf w e δ) s1))).filter
          (fun b => decide ((TA : ℤ) * δ ≤ ((s1.selIdx : ℤ) + 1) * δ - b.start)),
        ((fun r : ResEntry => (r.target, r.kind)) ∘
          (fun c => (⟨c.sock, c.target, ResKind.timeout⟩ : ResEntry))) b =
          pairF w e TA b.target := by
      intro b hbe
      have hb1 := List.mem_filter.mp hbe
      have hb2 := List.mem_filter.mp hb1.1
      obtain ⟨hst, hle, hage⟩ := hFl1 b hb2.1
      have hnr : b.sock ∉ readyEff (envOf w e δ) s1 := of_decide_eq_true hb2.2
      have hexp : (TA : ℤ) * δ ≤ ((s1.selIdx : ℤ) + 1) * δ - b.start :=
        of_decide_eq_true hb1.2
      rw [hst, envOf_expire_iff hδ] at hexp
      rw [hsel1] at hexp
      show (b.target, ResKind.timeout) = pairF w e TA b.target
      cases hw : w b.target with
      | none => simp [pairF, resolveKind, hw]
      | some d =>
        have hnd : ¬ (d + b.bornAt ≤ s1.selIdx + 1) := by
          intro hc
          exact hnr ((hReadyMem b hb2.1).mpr ⟨d, hw, hc⟩)
        rw [hsel1] at hnd
        simp only [pairF, resolveKind, hw]
        rw [if_neg (by omega)]
    -- partition permutations
    have hKeptPerm : ((s1.in_flight.filter
        (fun a => decide (a.sock ∈ readyEff (envOf w e δ) s1))) ++
        (s1.in_flight.filter
          (fun a => decide (a.sock ∉ readyEff (envOf w e δ) s1)))).Perm
        s1.in_flight := by
      have h1 := List.filter_append_perm
        (fun a => decide (a.sock ∈ readyEff (envOf w e δ) s1)) s1.in_flight
      have h2 : (fun (a : Attempt) => !decide (a.sock ∈ readyEff (envOf w e δ) s1)) =
          (fun a => decide (a.sock ∉ readyEff (envOf w e δ) s1)) := by
        funext a
        rw [decide_not]
      rw [h2] at h1
      exact h1
    have hExpPerm : (((s1.in_flight.filter
        (fun a => decide (a.sock ∉ readyEff (envOf w e δ) s1))).filter
          (fun b => decide ((TA : ℤ) * δ ≤ ((s1.selIdx : ℤ) + 1) * δ - b.start))) ++
        ((s1.in_flight.filter
          (fun a => decide (a.sock ∉ readyEff (envOf w e δ) s1))).filter
          (fun b => decide (¬ (TA : ℤ) * δ ≤ ((s1.selIdx : ℤ) + 1) * δ - b.start)))).Perm
        (s1.in_flight.filter
          (fun a => decide (a.sock ∉ readyEff (envOf w e δ) s1))) := by
      have h1 := List.filter_append_perm
        (fun b => decide ((TA : ℤ) * δ ≤ ((s1.selIdx : ℤ) + 1) * δ - b.start))
        (s1.in_flight.filter
          (fun a => decide (a.sock ∉ readyEff (envOf w e δ) s1)))
      have h2 : (fun (b : Attempt) =>
          !decide ((TA : ℤ) * δ ≤ ((s1.selIdx : ℤ) + 1) * δ - b.start)) =
          (fun b => decide (¬ (TA : ℤ) * δ ≤ ((s1.selIdx : ℤ) + 1) * δ - b.start)) := by
        funext b
        rw [decide_not]
      rw [h2] at h1
      exact h1
    -- assemble
    show (s'.resolved.map (fun r => (r.target, r.kind)) ++
        s'.in_flight.map (fun a => pairF w e TA a.target)).Perm
      ((s'.opened.map Prod.snd).map (pairF w e TA))
    rw [hRSV', hIF', hOP', List.map_append, List.map_append, List.map_map,
      List.map_map, List.map_congr_left hPopKind, List.map_congr_left hExpKind]
    have hGroups : ((popAttempts s1.in_flight (readyEff (envOf w e δ) s1)) ++
        (((s1.in_flight.filter
          (fun a => decide (a.sock ∉ readyEff (envOf w e δ) s1))).filter
            (fun b => decide ((TA : ℤ) * δ ≤ ((s1.selIdx : ℤ) + 1) * δ - b.start))) ++
        ((s1.in_flight.filter
          (fun a => decide (a.sock ∉ readyEff (envOf w e δ) s1))).filter
            (fun b => decide (¬ (TA : ℤ) * δ ≤ ((s1.selIdx : ℤ) + 1) * δ - b.start))))).Perm
        s1.in_flight := by
      refine List.Perm.trans (List.Perm.append hPopsPerm hExpPerm) hKeptPerm
    have hMaps := hGroups.map (fun a => pairF w e TA a.target)
    rw [List.map_append, List.map_append] at hMaps
    refine List.Perm.trans ?_ hAcct1
    rw [List.append_assoc, List.append_assoc]
    refine List.Perm.append_left _ ?_
    exact hMaps

/-- Reading the success targets off the `(target, kind)` pair list. -/
theorem results_from_pairs (l : List ResEntry) :
    ((l.map (fun r => (r.target, r.kind))).filter
      (fun q => decide (q.2 = ResKind.success))).map Prod.fst =
    (l.filter (fun r => decide (r.kind = ResKind.success))).map ResEntry.target := by
  rw [List.filter_map, List.map_map]
  rfl

/-- In the fixed-outcome environment, a run that returns normally
resolves exactly the produced targets, each with its predicted
resolution. -/
theorem scanLoop_fixedEnv {w : Target → Option Nat} {e : Target → Nat} {TA : Nat}
    {targets : List Target} {δ : ℤ} {conc : Nat}
    (hδ : 0 < δ) (hTA : 1 ≤ TA) (hconc : 0 < conc) :
    ∀ {fuel : Nat} {s sf : ScanState}, WF s → FixedEnvInv w e TA targets δ s →
      scanLoop (envOf w e δ) conc ((TA : ℤ) * δ) fuel s = .runDone sf →
      (sf.resolved.map (fun r => (r.target, r.kind)) : Multiset (Target × ResKind)) =
        (targets.map (pairF w e TA) : Multiset (Target × ResKind)) := by
  intro fuel
  induction fuel with
  | zero =>
    intro s sf _ _ h
    cases h
  | succ fuel ih =>
    intro s sf hWF hInv h
    rw [scanLoop] at h
    rcases hIt : scanIter (envOf w e δ) conc ((TA : ℤ) * δ) s
      with s1 | s1 | s1 <;> rw [hIt] at h
    · cases h
      obtain ⟨hr, hEmp⟩ := scanIter_done_inv hIt
      obtain ⟨⟨m, hm1, hm2⟩, -, hAcct1, -⟩ := refill_fixedEnv hTA hInv hr
      have hEmp2 : sf.in_flight = [] := List.isEmpty_iff.mp hEmp
      have hTk : sf.tasks = [] := by
        rcases refill_stop hr with h1 | h1
        · exact h1
        · exfalso
          rw [hEmp2] at h1
          simp at h1
          omega
      have hm3 : targets.drop m = [] := by
        rw [← hm1, hTk]
      have htake : targets.take m = targets :=
        List.take_of_length_le (List.drop_eq_nil_iff.mp hm3)
      rw [hEmp2] at hAcct1
      simp only [List.map_nil, List.append_nil] at hAcct1
      rw [hm2, htake] at hAcct1
      exact Multiset.coe_eq_coe.mpr hAcct1
    · have hWF1 : WF s1 := by
        have h2 := @scanIter_WF (envOf w e δ) conc ((TA : ℤ) * δ) s hWF
        rw [hIt] at h2
        exact h2
      exact ih hWF1 (scanIter_fixedEnv hδ hTA hWF hInv hIt) h
    · cases h

/-- C8: for a fixed target set with fixed per-target connection outcomes
(the environment `envOf w e δ`: each target becomes writable a fixed
number of polls after its own admission, or never, with a fixed pending
error), any two runs of `scan_sctp` that return normally — whatever their
concurrency values — produce the same multiset of resolutions, namely
each produced target with its predicted resolution, and in particular the
same Result Set (as a multiset); the runs differ only in how long they
take. -/
theorem concurrency_independent_outcomes (w : Target → Option Nat)
    (e : Target → Nat) (δ : ℤ) (TA : Nat) (ips : List String) (ports : List Nat)
    (conc₁ conc₂ fuel₁ fuel₂ : Nat) (sf₁ sf₂ : ScanState)
    (hδ : 0 < δ) (hTA : 1 ≤ TA) (h₁ : 0 < conc₁) (h₂ : 0 < conc₂)
    (hd₁ : scanLoop (envOf w e δ) conc₁ ((TA : ℤ) * δ) fuel₁
      (initState ips ports) = .runDone sf₁)
    (hd₂ : scanLoop (envOf w e δ) conc₂ ((TA : ℤ) * δ) fuel₂
      (initState ips ports) = .runDone sf₂) :
    (sf₁.resolved.map (fun r => (r.target, r.kind)) : Multiset (Target × ResKind)) =
      ((tasksOf ips ports).map (pairF w e TA) : Multiset (Target × ResKind)) ∧
    (sf₁.resolved.map (fun r => (r.target, r.kind)) : Multiset (Target × ResKind)) =
      (sf₂.resolved.map (fun r => (r.target, r.kind)) : Multiset (Target × ResKind)) ∧
    (sf₁.results : Multiset Target) = (sf₂.results : Multiset Target) := by
  have hInit : FixedEnvInv w e TA (tasksOf ips ports) δ (initState ips ports) := by
    refine ⟨⟨0, rfl, rfl⟩, ?_, ?_⟩
    · intro a ha
      simp [initState] at ha
    · simp [initState]
  have hchar₁ := scanLoop_fixedEnv hδ hTA h₁ (WF.initState ips ports) hInit hd₁
  have hchar₂ := scanLoop_fixedEnv hδ hTA h₂ (WF.initState ips ports) hInit hd₂
  have hpairs : (sf₁.resolved.map (fun r => (r.target, r.kind))).Perm
      (sf₂.resolved.map (fun r => (r.target, r.kind))) :=
    Multiset.coe_eq_coe.mp (hchar₁.trans hchar₂.symm)
  have hWFsf₁ : WF sf₁ := by
    have h3 := @scanLoop_WF (envOf w e δ) conc₁ ((TA : ℤ) * δ) fuel₁
      (initState ips ports) (WF.initState ips ports)
    rw [hd₁] at h3
    exact h3
  have hWFsf₂ : WF sf₂ := by
    have h3 := @scanLoop_WF (envOf w e δ) conc₂ ((TA : ℤ) * δ) fuel₂
      (initState ips ports) (WF.initState ips ports)
    rw [hd₂] at h3
    exact h3
  refine ⟨hchar₁, hchar₁.trans hchar₂.symm, ?_⟩
  have h4 := (hpairs.filter (fun q => decide (q.2 = ResKind.success))).map Prod.fst
  rw [results_from_pairs, results_from_pairs] at h4
  rw [hWFsf₁.res, hWFsf₂.res]
  exact Multiset.coe_eq_coe.mpr h4

/-- Witness for C8 at a concrete input: one reachable and one black-holed
target, scanned with concurrency 1 and with concurrency 2. -/
theorem concurrency_independent_witness :
    ((scanLoop (envOf (fun t => if t.2 = 2905 then some 1 else none)
        (fun _ => 0) 1) 1 (((1 : Nat) : ℤ) * 1) 5
        (initState ["198.51.100.7"] [2905, 2906])).state.resolved.map
      (fun r => (r.target, r.kind)) : Multiset (Target × ResKind)) =
      ((tasksOf ["198.51.100.7"] [2905, 2906]).map
        (pairF (fun t => if t.2 = 2905 then some 1 else none) (fun _ => 0) 1) :
        Multiset (Target × ResKind)) ∧
    ((scanLoop (envOf (fun t => if t.2 = 2905 then some 1 else none)
        (fun _ => 0) 1) 1 (((1 : Nat) : ℤ) * 1) 5
        (initState ["198.51.100.7"] [2905, 2906])).state.resolved.map
      (fun r => (r.target, r.kind)) : Multiset (Target × ResKind)) =
      ((scanLoop (envOf (fun t => if t.2 = 2905 then some 1 else none)
        (fun _ => 0) 1) 2 (((1 : Nat) : ℤ) * 1) 5
        (initState ["198.51.100.7"] [2905, 2906])).state.resolved.map
      (fun r => (r.target, r.kind)) : Multiset (Target × ResKind)) ∧
    ((scanLoop (envOf (fun t => if t.2 = 2905 then some 1 else none)
        (fun _ => 0) 1) 1 (((1 : Nat) : ℤ) * 1) 5
        (initState ["198.51.100.7"] [2905, 2906])).state.results :
        Multiset Target) =
      ((scanLoop (envOf (fun t => if t.2 = 2905 then some 1 else none)
        (fun _ => 0) 1) 2 (((1 : Nat) : ℤ) * 1) 5
        (initState ["198.51.100.7"] [2905, 2906])).state.results :
        Multiset Target) :=
  concurrency_independent_outcomes
    (fun t => if t.2 = 2905 then some 1 else none) (fun _ => 0) 1 1
    ["198.51.100.7"] [2905, 2906] 1 2 5 5 _ _
    (by decide) (le_refl 1) (by decide) (by decide) (by decide) (by decide)

/-- Witness for the amended C3 at a concrete input. -/
theorem admission_failure_aborts_witness :
    scanLoop (withFailAt (envOf (fun _ => some 1) (fun _ => 0) 1) 0) 2 1 5
        (initState ["198.51.100.7"] [2905, 2906]) =
      .runAborted { initState ["198.51.100.7"] [2905, 2906] with
        tasks := [("198.51.100.7", 2906)] } :=
  admission_failure_aborts (withFailAt (envOf (fun _ => some 1) (fun _ => 0) 1) 0)
    2 1 4 (initState ["198.51.100.7"] [2905, 2906]) ("198.51.100.7", 2905)
    [("198.51.100.7", 2906)] (by decide) (by decide) (by decide)

end Scan
